import Mathlib

/-!
Verification of the OpenVINO DNN backend scheduler
(libavfilter/dnn/dnn_backend_openvino.c).

The development is a shallow embedding of the scheduling, batching and
demultiplexing core of that file.  External collaborators (the OpenVINO
engine, frame pre/post-processing) are modelled through an environment
record holding the outcome every engine call would report; the data that
crosses the boundary (queue contents, request occupancy, task counters)
is modelled exactly as the C code manipulates it.  Machine integers of
the source are modelled as Nat or Int; none of the claims depends on
overflow behaviour.
-/

namespace DnnOv

/-- Mirrors DNNReturnType of dnn_interface.h (DNN_SUCCESS / DNN_ERROR). -/
inductive DNNReturnType where
  | DNN_SUCCESS
  | DNN_ERROR
deriving DecidableEq, Repr

export DNNReturnType (DNN_SUCCESS DNN_ERROR)

/-- Mirrors DNNAsyncStatusType values returned by ff_dnn_get_async_result_ov. -/
inductive DNNAsyncStatusType where
  | DAST_SUCCESS
  | DAST_NOT_READY
  | DAST_EMPTY_QUEUE
deriving DecidableEq, Repr

export DNNAsyncStatusType (DAST_SUCCESS DAST_NOT_READY DAST_EMPTY_QUEUE)

/-- Mirrors DNNFunctionType for the three categories the file handles. -/
inductive DNNFunctionType where
  | DFT_PROCESS_FRAME
  | DFT_ANALYTICS_DETECT
  | DFT_ANALYTICS_CLASSIFY
deriving DecidableEq, Repr

export DNNFunctionType (DFT_PROCESS_FRAME DFT_ANALYTICS_DETECT DFT_ANALYTICS_CLASSIFY)

/-- Mirrors the supported precision_e values (FP32, U8); other values hit
av_assert0 in precision_to_datatype and are not modelled. -/
inductive precision_e where
  | FP32
  | U8
deriving DecidableEq, Repr

/-- Mirrors DNNDataType. -/
inductive DNNDataType where
  | DNN_FLOAT
  | DNN_UINT8
deriving DecidableEq, Repr

/-- Mirrors precision_to_datatype. -/
def precision_to_datatype : precision_e → DNNDataType
  | precision_e.FP32 => DNNDataType.DNN_FLOAT
  | precision_e.U8 => DNNDataType.DNN_UINT8

/-- Mirrors get_datatype_size: sizeof(float) = 4, sizeof(uint8_t) = 1. -/
def get_datatype_size : DNNDataType → Nat
  | DNNDataType.DNN_FLOAT => 4
  | DNNDataType.DNN_UINT8 => 1

/-- Mirrors dimensions_t of the OpenVINO C API as used here (NCHW). -/
structure dimensions_t where
  d0 : Nat
  d1 : Nat
  d2 : Nat
  d3 : Nat
deriving DecidableEq, Repr

/-- AV_NUM_DETECTION_BBOX_CLASSIFY from libavutil/detection_bbox.h. -/
def AV_NUM_DETECTION_BBOX_CLASSIFY : Nat := 4

/-- The fields of AVDetectionBBox read by this file. -/
structure AVDetectionBBox where
  x : Int
  y : Int
  w : Int
  h : Int
  classify_count : Nat
  detect_label : String
deriving DecidableEq, Repr

/-- The fields of AVFrame read by the decomposition code.  The detection
side data (missing, or with zero size) is modelled as bboxes = none; a
present AVDetectionBBoxHeader is modelled by its bounding-box list, so a
header with nb_bboxes = 0 is bboxes = some []. -/
structure AVFrame where
  width : Int
  height : Int
  bboxes : Option (List AVDetectionBBox)
deriving DecidableEq, Repr

/-- av_strncasecmp(a, b, sizeof(bbox.detect_label)) == 0, for labels that
fit the fixed-size field: case-insensitive equality. -/
def av_strncasecmp_eq (a b : String) : Bool :=
  a.toLower == b.toLower

/-- TaskItem fields used by this file.  The model pointer and the name
bindings are engine-facing and not part of the scheduling state. -/
structure TaskItem where
  inference_todo : Nat
  inference_done : Nat
  async : Bool
  do_ioproc : Bool
  in_frame : AVFrame
  out_frame : Nat
deriving DecidableEq, Repr

/-- Default used to read a task slot out of range (never happens in
reachable states, see the well-formedness invariant). -/
def defaultTask : TaskItem :=
  { inference_todo := 0, inference_done := 0, async := false,
    do_ioproc := false, in_frame := { width := 0, height := 0, bboxes := none },
    out_frame := 0 }

/-- InferenceItem: back reference to the owning task (by index into the
task store) plus the bounding-box index for classification. -/
structure InferenceItem where
  taskId : Nat
  bbox_index : Nat
deriving DecidableEq, Repr

/-- OVRequestItem: the inferences array (capacity batch_size in C) and
the occupancy count.  The engine handle and the callback registration
carry no scheduling state. -/
structure OVRequestItem where
  inferences : List InferenceItem
  inference_count : Nat
deriving DecidableEq, Repr

/-- The scheduler state of one OVModel: the request pool (SafeQueue
request_queue), the task FIFO, the pending-inference FIFO, the task
store (C heap objects, addressed by index), and the set of requests
currently handed to the engine (implicit in C, needed to model the
asynchronous completion event). -/
structure OVModelState where
  request_queue : List OVRequestItem
  task_queue : List Nat
  inference_queue : List InferenceItem
  tasks : List TaskItem
  in_flight : List OVRequestItem
deriving DecidableEq, Repr

/-- Dereference a task pointer. -/
def getTask (tasks : List TaskItem) (tid : Nat) : TaskItem :=
  tasks.getD tid defaultTask

def doneOf (tasks : List TaskItem) (tid : Nat) : Nat :=
  (getTask tasks tid).inference_done

def todoOf (tasks : List TaskItem) (tid : Nat) : Nat :=
  (getTask tasks tid).inference_todo

/-- task->inference_done++ through the back reference. -/
def bumpDone (tasks : List TaskItem) (tid : Nat) : List TaskItem :=
  tasks.set tid
    { getTask tasks tid with
      inference_done := (getTask tasks tid).inference_done + 1 }

/-- How many queued inference items reference task tid. -/
def countFor (tid : Nat) (l : List InferenceItem) : Nat :=
  (l.filter (fun inf => inf.taskId = tid)).length

/-- The live prefix of a request slot: entries 0 .. inference_count-1 of
its inferences array. -/
def liveInfs (r : OVRequestItem) : List InferenceItem :=
  r.inferences.take r.inference_count

def inflightCount (tid : Nat) (l : List OVRequestItem) : Nat :=
  (l.map (fun r => countFor tid (liveInfs r))).sum

/-- Completed-or-committed work for a task: its done counter plus every
live inference item that still references it. -/
def potential (st : OVModelState) (tid : Nat) : Nat :=
  doneOf st.tasks tid + countFor tid st.inference_queue
    + inflightCount tid st.in_flight

/-! ### The fill / batching algorithm (fill_model_input_ov) -/

/-- One store request->inferences[i] = inference.  The C array has
capacity batch_size and the loop writes indices 0,1,2,... in order, so a
write lands either inside the current contents or directly past them. -/
def arrayWrite (l : List InferenceItem) (i : Nat) (a : InferenceItem) :
    List InferenceItem :=
  if i < l.length then l.set i a else l ++ [a]

/-- Sequential writes starting at index i (specification helper used to
describe what the fill loop leaves in the array). -/
def writeSeq (l : List InferenceItem) (i : Nat) :
    List InferenceItem → List InferenceItem
  | [] => l
  | x :: xs => writeSeq (arrayWrite l i x) (i + 1) xs

/-- Everything the engine reports to fill_model_input_ov through the
input blob, plus the success/failure of the blob calls themselves, and
the outcomes of the dispatch and completion calls made later. -/
structure EngineEnv where
  get_blob_ok : Bool
  in_dims : dimensions_t
  in_precision : precision_e
  set_cb_ok : Bool
  run_ok : Bool
  cb_blob_ok : Bool
  out_dims : dimensions_t
  out_precision : precision_e
deriving DecidableEq, Repr

/-- Input row stride of fill_model_input_ov:
input.width * input.height * input.channels * get_datatype_size(input.dt)
with height = dims[2], width = dims[3], channels = dims[1]. -/
def inputRowSize (env : EngineEnv) : Nat :=
  env.in_dims.d3 * env.in_dims.d2 * env.in_dims.d1
    * get_datatype_size (precision_to_datatype env.in_precision)

/-- The for loop of fill_model_input_ov.  fuel counts the remaining
iterations of for (i = 0; i < batch_size; ++i); i is the loop index,
cursor the byte offset of input.data from the blob buffer start.
Returns the updated request, the remaining queue, and the byte offset at
which each consumed sample was written, in pop order. -/
def fill_loop (row : Nat) :
    Nat → Nat → Nat → OVRequestItem → List InferenceItem →
    OVRequestItem × List InferenceItem × List Nat
  | 0, _, _, req, q => (req, q, [])
  | fuel + 1, i, cursor, req, q =>
    match q with
    | [] => (req, q, [])
    | inf :: rest =>
      let req1 : OVRequestItem :=
        { inferences := arrayWrite req.inferences i inf,
          inference_count := i + 1 }
      let r := fill_loop row fuel (i + 1) (cursor + row) req1 rest
      (r.1, r.2.1, cursor :: r.2.2)

/-- fill_model_input_ov.  The initial peek has av_assert0(inference):
calling it on an empty queue aborts, modelled as none.  A failure of the
blob get/dims/precision/buffer calls returns DNN_ERROR before anything
is popped. -/
def fill_model_input_ov (env : EngineEnv) (batch_size : Nat)
    (req : OVRequestItem) (q : List InferenceItem) :
    Option (DNNReturnType × OVRequestItem × List InferenceItem × List Nat) :=
  match q with
  | [] => none
  | _ :: _ =>
    if env.get_blob_ok then
      some (DNN_SUCCESS, fill_loop (inputRowSize env) batch_size 0 0 req q)
    else
      some (DNN_ERROR, req, q, [])

/-! ### The completion / demultiplex routine (infer_completion_callback) -/

/-- The backend configuration and model-level hooks that drive the
branching in the scheduler: batch size (option range 1..1000; init
clamps non-positive values to 1), the function category, and whether
the detect / classify post-processing callbacks were provided. -/
structure OVConfig where
  batch_size : Nat
  func_type : DNNFunctionType
  has_detect_post : Bool
  has_classify_post : Bool
deriving DecidableEq, Repr

/-- The condition under which the switch inside the demultiplex loop hits
one of its early return statements: function category detect (resp.
classify) with a null detect_post_proc (resp. classify_post_proc). -/
def post_missing (cfg : OVConfig) : Bool :=
  match cfg.func_type with
  | DFT_PROCESS_FRAME => false
  | DFT_ANALYTICS_DETECT => !cfg.has_detect_post
  | DFT_ANALYTICS_CLASSIFY => !cfg.has_classify_post

/-- The for loop of infer_completion_callback over the occupied entries.
Each iteration first increments the owning task inference_done, then
runs the per-category switch; when the needed post-processing callback
is missing the function returns from inside the loop (third component
false) without freeing the current entry; otherwise the entry is freed
(freed counter) and the loop continues. -/
def cb_loop (cfg : OVConfig) :
    List InferenceItem → List TaskItem → Nat → List TaskItem × Nat × Bool
  | [], tasks, freed => (tasks, freed, true)
  | inf :: rest, tasks, freed =>
    let tasks1 := bumpDone tasks inf.taskId
    if post_missing cfg then (tasks1, freed, false)
    else cb_loop cfg rest tasks1 (freed + 1)

/-- Result of one callback invocation: the task store after the
increments, the final request contents, whether the request was pushed
back onto request_queue, and how many inference items were freed. -/
structure CbResult where
  tasks : List TaskItem
  req : OVRequestItem
  returned : Bool
  freed : Nat
deriving DecidableEq, Repr

/-- infer_completion_callback.  A failure of the output blob get /
buffer / dims / precision calls returns early, leaking the request (the
engine batch-dimension asserts are never reached).  On the assert path,
av_assert0(request->inference_count <= dims.dims[0]) and
av_assert0(request->inference_count >= 1) abort when violated, modelled
as none.  Otherwise the demultiplex loop runs over the occupied entries;
if it finishes, occupancy is reset to 0 and the request is pushed back
onto request_queue. -/
def infer_completion_callback (cfg : OVConfig) (env : EngineEnv)
    (tasks : List TaskItem) (req : OVRequestItem) : Option CbResult :=
  if !env.cb_blob_ok then
    some { tasks := tasks, req := req, returned := false, freed := 0 }
  else if req.inference_count ≤ env.out_dims.d0 ∧ 1 ≤ req.inference_count then
    let r := cb_loop cfg (liveInfs req) tasks 0
    if r.2.2 then
      some { tasks := r.1, req := { req with inference_count := 0 },
             returned := true, freed := r.2.1 }
    else
      some { tasks := r.1, req := req, returned := false, freed := r.2.1 }
  else
    none

/-! ### Task decomposition (extract_inference_from_task) -/

/-- contain_valid_detection_bbox.  Note that the source checks the
vertical extent bbox->y + bbox->h against frame->width (not height) at
dnn_backend_openvino.c:557; the embedding mirrors that line as written. -/
def contain_valid_detection_bbox (frame : AVFrame) : Bool :=
  match frame.bboxes with
  | none => false
  | some bs =>
    if bs.length = 0 then false
    else bs.all fun bbox =>
      !(bbox.x < 0 || bbox.w < 0 || bbox.x + bbox.w ≥ frame.width) &&
      !(bbox.y < 0 || bbox.h < 0 || bbox.y + bbox.h ≥ frame.width) &&
      !(bbox.classify_count = AV_NUM_DETECTION_BBOX_CLASSIFY)

/-- The bbox loop of the DFT_ANALYTICS_CLASSIFY branch of
extract_inference_from_task: for each bounding box whose detect_label
matches the target filter (when one is set), increment
task->inference_todo and append one InferenceItem carrying the bbox
index.  Allocation failures are not modelled (allocation succeeds). -/
def classify_loop (tid : Nat) (target : Option String) :
    List AVDetectionBBox → Nat → TaskItem → List InferenceItem →
    TaskItem × List InferenceItem
  | [], _, task, q => (task, q)
  | bbox :: rest, i, task, q =>
    if (match target with
        | some t => !av_strncasecmp_eq bbox.detect_label t
        | none => false) then
      classify_loop tid target rest (i + 1) task q
    else
      classify_loop tid target rest (i + 1)
        { task with inference_todo := task.inference_todo + 1 }
        (q ++ [{ taskId := tid, bbox_index := i }])

/-- extract_inference_from_task.  tid is the store index of the task
object the created inference items point back to; target is
DNNExecClassificationParams->target (classification only).  Returns the
updated task object and the new pending queue. -/
def extract_inference_from_task (func_type : DNNFunctionType) (tid : Nat)
    (task : TaskItem) (target : Option String) (q : List InferenceItem) :
    TaskItem × List InferenceItem :=
  match func_type with
  | DFT_PROCESS_FRAME | DFT_ANALYTICS_DETECT =>
    ({ task with inference_todo := 1, inference_done := 0 },
     q ++ [{ taskId := tid, bbox_index := 0 }])
  | DFT_ANALYTICS_CLASSIFY =>
    let task1 := { task with inference_todo := 0, inference_done := 0 }
    if !contain_valid_detection_bbox task.in_frame then (task1, q)
    else
      match task.in_frame.bboxes with
      | none => (task1, q)
      | some bs => classify_loop tid target bs 0 task1 q

/-! ### Dispatch (execute_model_ov) -/

/-- Observable outcome of one execute_model_ov call.  destroyedSlot
records the empty-queue path that frees the request instead of pushing
it anywhere; dispatched records a successful asynchronous hand-off to
the engine; ranCallbackInline records the synchronous path invoking the
completion routine on the caller thread. -/
structure ExecOut where
  ret : DNNReturnType
  st : OVModelState
  destroyedSlot : Bool
  dispatched : Bool
  ranCallbackInline : Bool
deriving DecidableEq, Repr

/-- The goto err path of execute_model_ov: push the request back onto
request_queue as it stands (occupancy untouched) and report DNN_ERROR.
The queue argument is the pending queue as the failing step left it. -/
def execGotoErr (st : OVModelState) (req1 : OVRequestItem)
    (q1 : List InferenceItem) : ExecOut :=
  { ret := DNN_ERROR,
    st := { st with
            request_queue := st.request_queue ++ [req1],
            inference_queue := q1 },
    destroyedSlot := false, dispatched := false, ranCallbackInline := false }

/-- execute_model_ov.  The request argument has already been popped from
request_queue by the caller.  none models an av_assert0 abort (only
possible through the inline completion routine of the synchronous
path).  The push back onto request_queue is modelled as succeeding. -/
def execute_model_ov (cfg : OVConfig) (env : EngineEnv)
    (req : OVRequestItem) (st : OVModelState) : Option ExecOut :=
  match st.inference_queue with
  | [] =>
    some { ret := DNN_SUCCESS, st := st, destroyedSlot := true,
           dispatched := false, ranCallbackInline := false }
  | inf :: _ =>
    let tid := inf.taskId
    if (getTask st.tasks tid).async then
      match fill_model_input_ov env cfg.batch_size req st.inference_queue with
      | none => none
      | some (DNN_ERROR, req1, q1, _) => some (execGotoErr st req1 q1)
      | some (DNN_SUCCESS, req1, q1, _) =>
        if !env.set_cb_ok then some (execGotoErr st req1 q1)
        else if !env.run_ok then some (execGotoErr st req1 q1)
        else
          some { ret := DNN_SUCCESS,
                 st := { st with
                         inference_queue := q1,
                         in_flight := st.in_flight ++ [req1] },
                 destroyedSlot := false, dispatched := true,
                 ranCallbackInline := false }
    else
      match fill_model_input_ov env cfg.batch_size req st.inference_queue with
      | none => none
      | some (DNN_ERROR, req1, q1, _) => some (execGotoErr st req1 q1)
      | some (DNN_SUCCESS, req1, q1, _) =>
        if !env.run_ok then some (execGotoErr st req1 q1)
        else
          match infer_completion_callback cfg env st.tasks req1 with
          | none => none
          | some cb =>
            some { ret :=
                     if doneOf cb.tasks tid = todoOf cb.tasks tid then
                       DNN_SUCCESS
                     else DNN_ERROR,
                   st := { st with
                           inference_queue := q1,
                           tasks := cb.tasks,
                           request_queue :=
                             if cb.returned then st.request_queue ++ [cb.req]
                             else st.request_queue },
                   destroyedSlot := false, dispatched := false,
                   ranCallbackInline := true }

/-! ### Caller-facing entry points -/

/-- DNNExecBaseParams / DNNExecClassificationParams as they reach this
backend: the frames and the optional classification label filter. -/
structure SubmitParams where
  in_frame : AVFrame
  out_frame : Nat
  target : Option String
deriving DecidableEq, Repr

/-- ff_dnn_fill_task: populate a TaskItem from the exec params.  The
counters are written later by extract_inference_from_task. -/
def ff_dnn_fill_task (p : SubmitParams) (async do_ioproc : Bool) : TaskItem :=
  { inference_todo := 0, inference_done := 0, async := async,
    do_ioproc := do_ioproc, in_frame := p.in_frame,
    out_frame := p.out_frame }

/-- The while loop at the end of ff_dnn_execute_model_async_ov:
while inference_queue size is at least batch_size, pop a request from
request_queue (failing if the pool is empty) and run execute_model_ov,
stopping early on error.  fuel bounds the iterations; any fuel at least
the queue length is enough when batch_size is positive, because each
successful dispatch consumes at least one queued item.  The third result
component counts how many dispatch attempts were made. -/
def dispatch_while (cfg : OVConfig) (env : EngineEnv) :
    Nat → OVModelState → Nat → Option (DNNReturnType × OVModelState × Nat)
  | 0, st, nd => some (DNN_SUCCESS, st, nd)
  | fuel + 1, st, nd =>
    if cfg.batch_size ≤ st.inference_queue.length then
      match st.request_queue with
      | [] => some (DNN_ERROR, st, nd)
      | req :: rest =>
        match execute_model_ov cfg env req { st with request_queue := rest } with
        | none => none
        | some out =>
          if out.ret = DNN_SUCCESS then dispatch_while cfg env fuel out.st (nd + 1)
          else some (DNN_ERROR, out.st, nd + 1)
    else some (DNN_SUCCESS, st, nd)

/-- ff_dnn_execute_model_async_ov (the model is assumed Ready, i.e.
exe_network already created; parameter checking passed).  Allocates the
task, pushes it onto task_queue, decomposes it onto inference_queue,
then runs the batch-gated dispatch loop.  Returns the status, the new
state and the number of dispatches performed. -/
def ff_dnn_execute_model_async_ov (cfg : OVConfig) (env : EngineEnv)
    (p : SubmitParams) (st : OVModelState) :
    Option (DNNReturnType × OVModelState × Nat) :=
  let tid := st.tasks.length
  let task0 := ff_dnn_fill_task p true true
  let st1 : OVModelState :=
    { st with
      tasks := st.tasks ++ [task0],
      task_queue := st.task_queue ++ [tid] }
  let er := extract_inference_from_task cfg.func_type tid task0 p.target
      st1.inference_queue
  let st2 : OVModelState :=
    { st1 with
      tasks := st1.tasks.set tid er.1,
      inference_queue := er.2 }
  dispatch_while cfg env st2.inference_queue.length st2 0

/-- ff_dnn_execute_model_ov, the synchronous entry point.  Rejects
classification and batch_size greater than 1 up front; otherwise builds
a stack task (it is stored but never enters task_queue), decomposes it,
pops one request and runs execute_model_ov. -/
def ff_dnn_execute_model_ov (cfg : OVConfig) (env : EngineEnv)
    (p : SubmitParams) (st : OVModelState) :
    Option (DNNReturnType × OVModelState) :=
  if cfg.func_type = DFT_ANALYTICS_CLASSIFY then some (DNN_ERROR, st)
  else if 1 < cfg.batch_size then some (DNN_ERROR, st)
  else
    let tid := st.tasks.length
    let task0 := ff_dnn_fill_task p false true
    let er := extract_inference_from_task cfg.func_type tid task0 p.target
        st.inference_queue
    let st1 : OVModelState :=
      { st with
        tasks := st.tasks ++ [er.1],
        inference_queue := er.2 }
    match st1.request_queue with
    | [] => some (DNN_ERROR, st1)
    | req :: rest =>
      match execute_model_ov cfg env req { st1 with request_queue := rest } with
      | none => none
      | some out => some (out.ret, out.st)

/-- ff_dnn_flush_ov.  Empty pending queue: immediate success.  Otherwise
pop one request and run the fill plus asynchronous dispatch sequence
once; note that the error paths of this function return without pushing
the request anywhere (the source leaks it there). -/
def ff_dnn_flush_ov (cfg : OVConfig) (env : EngineEnv) (st : OVModelState) :
    Option (DNNReturnType × OVModelState × Bool) :=
  if st.inference_queue.length = 0 then some (DNN_SUCCESS, st, false)
  else
    match st.request_queue with
    | [] => some (DNN_ERROR, st, false)
    | req :: rest =>
      let st1 : OVModelState := { st with request_queue := rest }
      match fill_model_input_ov env cfg.batch_size req st.inference_queue with
      | none => none
      | some (DNN_ERROR, _, q1, _) =>
        some (DNN_ERROR, { st1 with inference_queue := q1 }, false)
      | some (DNN_SUCCESS, req1, q1, _) =>
        if !env.set_cb_ok then
          some (DNN_ERROR, { st1 with inference_queue := q1 }, false)
        else if !env.run_ok then
          some (DNN_ERROR, { st1 with inference_queue := q1 }, false)
        else
          some (DNN_SUCCESS,
                { st1 with
                  inference_queue := q1,
                  in_flight := st1.in_flight ++ [req1] },
                true)

/-- ff_dnn_get_async_result_ov: inspect the front of task_queue.  On
success the in/out frames of the task are handed to the caller and the
task leaves the queue (the C code then frees the task object; the store
entry is simply never referenced again). -/
def ff_dnn_get_async_result_ov (st : OVModelState) :
    DNNAsyncStatusType × Option (AVFrame × Nat) × OVModelState :=
  match st.task_queue with
  | [] => (DAST_EMPTY_QUEUE, none, st)
  | tid :: rest =>
    if (getTask st.tasks tid).inference_done ≠ (getTask st.tasks tid).inference_todo
    then (DAST_NOT_READY, none, st)
    else
      (DAST_SUCCESS,
       some ((getTask st.tasks tid).in_frame, (getTask st.tasks tid).out_frame),
       { st with task_queue := rest })

/-- The engine finishing one in-flight request (index i) and invoking
the registered completion callback on its own thread.  When the
callback pushes the request back it reappears in request_queue; on the
early-return paths the request is simply gone (leaked). -/
def complete_event (cfg : OVConfig) (env : EngineEnv) (st : OVModelState)
    (i : Nat) : Option OVModelState :=
  match st.in_flight.get? i with
  | none => none
  | some req =>
    match infer_completion_callback cfg env st.tasks req with
    | none => none
    | some cb =>
      some { st with
             tasks := cb.tasks,
             in_flight := st.in_flight.take i ++ st.in_flight.drop (i + 1),
             request_queue :=
               if cb.returned then st.request_queue ++ [cb.req]
               else st.request_queue }

/-! ### The transition system and its invariant -/

/-- State right after init_model_ov: nireq fresh request slots, all
queues empty. -/
def initState (nireq : Nat) : OVModelState :=
  { request_queue := List.replicate nireq { inferences := [], inference_count := 0 },
    task_queue := [], inference_queue := [], tasks := [], in_flight := [] }

/-- One observable transition of the scheduler: a caller entry point
returning normally (not aborting), or the engine completing an in-flight
request.  The engine environment of each transition is arbitrary. -/
inductive OVStep (cfg : OVConfig) : OVModelState → OVModelState → Prop where
  | submit_async (env : EngineEnv) (p : SubmitParams) (st : OVModelState)
      (ret : DNNReturnType) (st' : OVModelState) (nd : Nat)
      (h : ff_dnn_execute_model_async_ov cfg env p st = some (ret, st', nd)) :
      OVStep cfg st st'
  | submit_sync (env : EngineEnv) (p : SubmitParams) (st : OVModelState)
      (ret : DNNReturnType) (st' : OVModelState)
      (h : ff_dnn_execute_model_ov cfg env p st = some (ret, st')) :
      OVStep cfg st st'
  | flush (env : EngineEnv) (st : OVModelState) (ret : DNNReturnType)
      (st' : OVModelState) (b : Bool)
      (h : ff_dnn_flush_ov cfg env st = some (ret, st', b)) :
      OVStep cfg st st'
  | poll (st : OVModelState) :
      OVStep cfg st (ff_dnn_get_async_result_ov st).2.2
  | complete (env : EngineEnv) (st : OVModelState) (i : Nat)
      (st' : OVModelState)
      (h : complete_event cfg env st i = some st') :
      OVStep cfg st st'

/-- States reachable from a freshly initialised model. -/
inductive Reachable (cfg : OVConfig) : OVModelState → Prop where
  | init (nireq : Nat) : Reachable cfg (initState nireq)
  | step {st st' : OVModelState} (h : Reachable cfg st)
      (hs : OVStep cfg st st') : Reachable cfg st'

/-- Zero or more transitions. -/
inductive Steps (cfg : OVConfig) : OVModelState → OVModelState → Prop where
  | refl (st : OVModelState) : Steps cfg st st
  | tail {st st' st'' : OVModelState} (h : Steps cfg st st')
      (hs : OVStep cfg st' st'') : Steps cfg st st''

/-- Every live inference item points at an existing task. -/
def WFInfs (st : OVModelState) : Prop :=
  (∀ inf ∈ st.inference_queue, inf.taskId < st.tasks.length) ∧
  (∀ r ∈ st.in_flight, ∀ inf ∈ liveInfs r, inf.taskId < st.tasks.length)

/-- The scheduling invariant: live references are well formed and no
task can ever be over-completed (its done counter plus every live
inference item referencing it stays within inference_todo). -/
def Inv (st : OVModelState) : Prop :=
  WFInfs st ∧ ∀ tid < st.tasks.length, potential st tid ≤ todoOf st.tasks tid

/-- What a single transition guarantees about the tasks that already
existed: their todo target is frozen, their done counter never
decreases, and their outstanding work (potential) never grows. -/
def Evolves (st st' : OVModelState) : Prop :=
  st.tasks.length ≤ st'.tasks.length ∧
  ∀ tid < st.tasks.length,
    todoOf st'.tasks tid = todoOf st.tasks tid ∧
    doneOf st.tasks tid ≤ doneOf st'.tasks tid ∧
    potential st' tid ≤ potential st tid

/-- Evolution together with invariant preservation: the induction
obligation proved for every transition. -/
def Preserves (st st' : OVModelState) : Prop :=
  Evolves st st' ∧ (Inv st → Inv st')

/-! ### Concrete fixtures used by witnesses and scenario runs -/

/-- An engine environment in which every engine call succeeds; the input
blob is 1x3x2x2 U8, the output blob batch dimension is 4. -/
def envOK : EngineEnv :=
  { get_blob_ok := true,
    in_dims := { d0 := 1, d1 := 3, d2 := 2, d3 := 2 },
    in_precision := precision_e.U8,
    set_cb_ok := true, run_ok := true, cb_blob_ok := true,
    out_dims := { d0 := 4, d1 := 3, d2 := 2, d3 := 2 },
    out_precision := precision_e.FP32 }

/-- A frame with no detection side data. -/
def plainFrame : AVFrame := { width := 100, height := 50, bboxes := none }

/-- Submission parameters for a whole-frame task. -/
def plainParams : SubmitParams :=
  { in_frame := plainFrame, out_frame := 7, target := none }

/-- Frame-processing configuration with batch size 4. -/
def cfgFrame4 : OVConfig :=
  { batch_size := 4, func_type := DFT_PROCESS_FRAME,
    has_detect_post := false, has_classify_post := false }

/-- A three-element pending queue referencing tasks 0, 1, 2. -/
def sampleQueue3 : List InferenceItem :=
  [{ taskId := 0, bbox_index := 0 }, { taskId := 1, bbox_index := 0 },
   { taskId := 2, bbox_index := 0 }]

/-- Detection configuration whose filter did not provide
detect_post_proc. -/
def cfgDetectNoPost : OVConfig :=
  { batch_size := 1, func_type := DFT_ANALYTICS_DETECT,
    has_detect_post := false, has_classify_post := false }

/-- A 100x50 frame carrying one detection bbox whose vertical extent
(y + h = 60) exceeds the frame height (50) but not the frame width
(100). -/
def oobFrame : AVFrame :=
  { width := 100, height := 50,
    bboxes := some [{ x := 0, y := 0, w := 10, h := 60,
                      classify_count := 0, detect_label := "face" }] }

/-- A classification task whose input frame is oobFrame. -/
def oobTask : TaskItem :=
  { inference_todo := 0, inference_done := 0, async := true,
    do_ioproc := true, in_frame := oobFrame, out_frame := 0 }

/-- Frame-processing configuration with batch size 1. -/
def cfgFrame1 : OVConfig :=
  { batch_size := 1, func_type := DFT_PROCESS_FRAME,
    has_detect_post := false, has_classify_post := false }

/-- An idle request slot as init_model_ov creates it. -/
def freshReq : OVRequestItem := { inferences := [], inference_count := 0 }

/-- A one-inference synchronous whole-frame task. -/
def syncTask : TaskItem :=
  { inference_todo := 1, inference_done := 0, async := false,
    do_ioproc := true, in_frame := plainFrame, out_frame := 7 }

/-- State holding one pending inference of syncTask (slot already
popped by the caller). -/
def syncSt : OVModelState :=
  { request_queue := [], task_queue := [],
    inference_queue := [{ taskId := 0, bbox_index := 0 }],
    tasks := [syncTask], in_flight := [] }

/-- A one-inference asynchronous whole-frame task. -/
def asyncTask : TaskItem :=
  { inference_todo := 1, inference_done := 0, async := true,
    do_ioproc := true, in_frame := plainFrame, out_frame := 7 }

/-- State holding one pending inference of asyncTask (slot already
popped by the caller). -/
def asyncSt : OVModelState :=
  { request_queue := [], task_queue := [0],
    inference_queue := [{ taskId := 0, bbox_index := 0 }],
    tasks := [asyncTask], in_flight := [] }

/-- One asynchronous whole-frame submission in Scenario B (batch size 4,
one request slot, every engine call succeeding). -/
def scenBStep (st : OVModelState) :
    Option (DNNReturnType × OVModelState × Nat) :=
  ff_dnn_execute_model_async_ov cfgFrame4 envOK plainParams st

/-- Scenario B after one submission from a fresh model. -/
def scenB1 : Option (DNNReturnType × OVModelState × Nat) :=
  scenBStep (initState 1)

/-- Scenario B after two submissions. -/
def scenB2 : Option (DNNReturnType × OVModelState × Nat) :=
  scenB1.bind (fun r => scenBStep r.2.1)

/-- Scenario B after three submissions. -/
def scenB3 : Option (DNNReturnType × OVModelState × Nat) :=
  scenB2.bind (fun r => scenBStep r.2.1)

/-- Scenario B after four submissions. -/
def scenB4 : Option (DNNReturnType × OVModelState × Nat) :=
  scenB3.bind (fun r => scenBStep r.2.1)

/-- Scenario B after the engine completes the single dispatched batch. -/
def scenB5 : Option OVModelState :=
  scenB4.bind (fun r => complete_event cfgFrame4 envOK r.2.1 0)

/-- Five successive polls of the completed-task queue: the statuses in
order, and the task FIFO remaining after each successful poll. -/
def scenPolls (s : OVModelState) :
    List DNNAsyncStatusType × List (List Nat) :=
  let p1 := ff_dnn_get_async_result_ov s
  let p2 := ff_dnn_get_async_result_ov p1.2.2
  let p3 := ff_dnn_get_async_result_ov p2.2.2
  let p4 := ff_dnn_get_async_result_ov p3.2.2
  let p5 := ff_dnn_get_async_result_ov p4.2.2
  ([p1.1, p2.1, p3.1, p4.1, p5.1],
   [p1.2.2.task_queue, p2.2.2.task_queue, p3.2.2.task_queue,
    p4.2.2.task_queue])

/-! ### Lemmas about the fill loop -/

theorem arrayWrite_eq (x : InferenceItem) :
    ∀ (l : List InferenceItem) (i : Nat), i ≤ l.length →
      arrayWrite l i x = l.take i ++ x :: l.drop (i + 1)
  | [], 0, _ => by simp [arrayWrite]
  | [], i + 1, h => by simp at h
  | a :: l, 0, _ => by simp [arrayWrite]
  | a :: l, i + 1, h => by
    have hi : i ≤ l.length := by simpa using h
    have ih := arrayWrite_eq x l i hi
    by_cases hlt : i < l.length
    · have hlt' : i + 1 < (a :: l).length := by simp; omega
      simp only [arrayWrite, hlt', if_pos, hlt] at *
      simp [List.set_cons_succ, ih]
    · have hieq : i = l.length := by omega
      have hlt' : ¬ (i + 1 < (a :: l).length) := by simp; omega
      simp only [arrayWrite, hlt', if_neg, not_false_iff, hlt] at *
      simp [ih, hieq, List.take_of_length_le, List.drop_eq_nil_of_le]

theorem writeSeq_eq :
    ∀ (xs : List InferenceItem) (l : List InferenceItem) (i : Nat),
      i ≤ l.length →
      writeSeq l i xs = l.take i ++ xs ++ l.drop (i + xs.length)
  | [], l, i, _ => by simp [writeSeq]
  | x :: xs, l, i, h => by
    have hw := arrayWrite_eq x l i h
    have hti : (l.take i).length = i := by
      simp only [List.length_take]
      omega
    have hlen : i + 1 ≤ (arrayWrite l i x).length := by
      rw [hw]
      simp only [List.length_append, List.length_cons, hti]
      omega
    have ih := writeSeq_eq xs (arrayWrite l i x) (i + 1) hlen
    have htake : (arrayWrite l i x).take (i + 1) = l.take i ++ [x] := by
      rw [hw, List.take_append_eq_append_take, List.take_take, hti]
      have e1 : min (i + 1) i = i := by omega
      have e2 : i + 1 - i = 1 := by omega
      rw [e1, e2]
      simp
    have hdrop : (arrayWrite l i x).drop (i + 1 + xs.length)
        = l.drop (i + (x :: xs).length) := by
      rw [hw, List.drop_append_eq_append_drop, hti]
      have e1 : (l.take i).drop (i + 1 + xs.length) = [] :=
        List.drop_eq_nil_of_le (by rw [hti]; omega)
      have e2 : i + 1 + xs.length - i = xs.length + 1 := by omega
      rw [e1, e2]
      simp only [List.nil_append, List.drop_succ_cons, List.drop_drop]
      congr 1
      simp only [List.length_cons]
      omega
    rw [writeSeq, ih, htake, hdrop]
    simp [List.append_assoc]

theorem fill_loop_eq (row : Nat) :
    ∀ (fuel : Nat) (q : List InferenceItem) (i cursor : Nat)
      (req : OVRequestItem),
      fill_loop row fuel i cursor req q =
        ({ inferences := writeSeq req.inferences i (q.take (min fuel q.length)),
           inference_count :=
             if min fuel q.length = 0 then req.inference_count
             else i + min fuel q.length },
         q.drop (min fuel q.length),
         (List.range (min fuel q.length)).map (fun j => cursor + j * row))
  | 0, q, i, cursor, req => by simp [fill_loop, writeSeq]
  | fuel + 1, [], i, cursor, req => by simp [fill_loop, writeSeq]
  | fuel + 1, inf :: rest, i, cursor, req => by
    have ih := fill_loop_eq row fuel rest (i + 1) (cursor + row)
      { inferences := arrayWrite req.inferences i inf, inference_count := i + 1 }
    have hmin : min (fuel + 1) (rest.length + 1) = min fuel rest.length + 1 := by
      omega
    simp only [fill_loop, ih, List.length_cons, hmin]
    refine Prod.ext ?_ (Prod.ext ?_ ?_)
    · simp only [List.take_succ_cons, writeSeq, OVRequestItem.mk.injEq]
      refine ⟨by trivial, ?_⟩
      split
      · split <;> omega
      · split <;> omega
    · simp [List.drop_succ_cons]
    · simp only [List.range_succ_eq_map, List.map_cons, List.map_map]
      congr 1
      · simp
      · refine List.map_congr_left fun j _ => ?_
        simp only [Function.comp_apply, Nat.succ_eq_add_one]
        ring

theorem writeSeq_zero (l xs : List InferenceItem) :
    writeSeq l 0 xs = xs ++ l.drop xs.length := by
  simpa using writeSeq_eq xs l 0 (Nat.zero_le _)

/-- Successful fill on a non-empty queue, in closed form. -/
theorem fill_model_input_ov_spec (env : EngineEnv) (B : Nat)
    (req : OVRequestItem) (q : List InferenceItem) (hq : q ≠ [])
    (hblob : env.get_blob_ok = true) :
    fill_model_input_ov env B req q =
      some (DNN_SUCCESS,
        { inferences := writeSeq req.inferences 0 (q.take (min B q.length)),
          inference_count :=
            if min B q.length = 0 then req.inference_count
            else min B q.length },
        q.drop (min B q.length),
        (List.range (min B q.length)).map (fun j => j * inputRowSize env)) := by
  match q with
  | [] => exact absurd rfl hq
  | a :: q' =>
    simp only [fill_model_input_ov, hblob, if_pos,
      fill_loop_eq (inputRowSize env) B (a :: q') 0 0 req]
    simp

/-- Claim C1: for a pending queue holding s1..sk and a fresh request
slot, fill_model_input_ov pops exactly min(k, batch_size) items from the
queue front in FIFO order, stores them in the inferences array in pop
order, sets inference_count to the number popped, and writes sample i at
input-buffer byte offset
i * (width * height * channels * elementSize). -/
theorem c1_fill_packs_batch (env : EngineEnv) (batch_size : Nat)
    (q : List InferenceItem) (hq : q ≠ []) (hblob : env.get_blob_ok = true)
    (hB : 1 ≤ batch_size) :
    fill_model_input_ov env batch_size
        { inferences := [], inference_count := 0 } q
      = some (DNN_SUCCESS,
          { inferences := q.take (min q.length batch_size),
            inference_count := min q.length batch_size },
          q.drop (min q.length batch_size),
          (List.range (min q.length batch_size)).map
            (fun i => i * (env.in_dims.d3 * env.in_dims.d2 * env.in_dims.d1
              * get_datatype_size (precision_to_datatype env.in_precision)))) := by
  rw [fill_model_input_ov_spec env batch_size _ q hq hblob]
  have hqlen : 1 ≤ q.length := List.length_pos.mpr hq
  have hmin : min batch_size q.length = min q.length batch_size := Nat.min_comm _ _
  rw [writeSeq_zero]
  simp only [List.drop_nil, List.append_nil, hmin, inputRowSize]
  rw [if_neg (show ¬ (min q.length batch_size = 0) by omega)]

/-- Witness for c1_fill_packs_batch at batch size 2 and a three-element
queue. -/
theorem c1_fill_packs_batch_witness :
    fill_model_input_ov envOK 2
        { inferences := [], inference_count := 0 } sampleQueue3
      = some (DNN_SUCCESS,
          { inferences := sampleQueue3.take (min sampleQueue3.length 2),
            inference_count := min sampleQueue3.length 2 },
          sampleQueue3.drop (min sampleQueue3.length 2),
          (List.range (min sampleQueue3.length 2)).map
            (fun i => i * (envOK.in_dims.d3 * envOK.in_dims.d2 * envOK.in_dims.d1
              * get_datatype_size (precision_to_datatype envOK.in_precision)))) :=
  c1_fill_packs_batch envOK 2 sampleQueue3 (by decide) (by decide) (by decide)

/-! ### Claims about the completion routine -/

/-- Claim C9: in the completion routine, once the output blob has been
retrieved, processing proceeds iff the engine-reported batch dimension
dims[0] is at least the occupancy N and N is at least 1; otherwise the
av_assert0 pair aborts (the failure branch is unreachable exactly when
the engine honours its contract). -/
theorem c9_callback_asserts_batchdim (cfg : OVConfig) (env : EngineEnv)
    (tasks : List TaskItem) (req : OVRequestItem)
    (hblob : env.cb_blob_ok = true) :
    (infer_completion_callback cfg env tasks req).isSome
      ↔ (1 ≤ req.inference_count ∧ req.inference_count ≤ env.out_dims.d0) := by
  simp only [infer_completion_callback, hblob, Bool.not_true, Bool.false_eq_true,
    if_false]
  split_ifs with hg h2
  · simpa using ⟨hg.2, hg.1⟩
  · simpa using ⟨hg.2, hg.1⟩
  · simp only [Option.isSome_none, Bool.false_eq_true, false_iff]
    tauto

/-- Witness for c9_callback_asserts_batchdim: occupancy 1, batch
dimension 4. -/
theorem c9_callback_asserts_batchdim_witness :
    (infer_completion_callback cfgFrame4 envOK [defaultTask]
        { inferences := [{ taskId := 0, bbox_index := 0 }],
          inference_count := 1 }).isSome
      ↔ (1 ≤ (OVRequestItem.mk [{ taskId := 0, bbox_index := 0 }] 1).inference_count
          ∧ (OVRequestItem.mk [{ taskId := 0, bbox_index := 0 }] 1).inference_count
              ≤ envOK.out_dims.d0) :=
  c9_callback_asserts_batchdim cfgFrame4 envOK [defaultTask] _ (by decide)

/-- Claim C10: when the function category is detect or classify and the
corresponding post-processing callback is null, the completion routine
returns from inside its demultiplex loop: the request is not pushed back
onto request_queue, its occupancy is not reset, and none of the occupied
inference items is freed. -/
theorem c10_null_postproc_early_return (cfg : OVConfig) (env : EngineEnv)
    (tasks : List TaskItem) (req : OVRequestItem)
    (hpost : post_missing cfg = true) (hblob : env.cb_blob_ok = true)
    (hcnt : 1 ≤ req.inference_count)
    (hdim : req.inference_count ≤ env.out_dims.d0)
    (hlen : req.inference_count ≤ req.inferences.length) :
    ∃ r, infer_completion_callback cfg env tasks req = some r ∧
      r.returned = false ∧ r.req = req ∧ r.freed = 0 ∧
      r.freed < req.inference_count := by
  have hlivelen : 0 < (liveInfs req).length := by
    simp only [liveInfs, List.length_take]
    omega
  obtain ⟨a, l, hl⟩ : ∃ a l, liveInfs req = a :: l := by
    match hh : liveInfs req with
    | [] => rw [hh] at hlivelen; simp at hlivelen
    | a :: l => exact ⟨a, l, rfl⟩
  have hloop : cb_loop cfg (liveInfs req) tasks 0
      = (bumpDone tasks a.taskId, 0, false) := by
    rw [hl]
    simp [cb_loop, hpost]
  simp only [infer_completion_callback, hblob, Bool.not_true, Bool.false_eq_true,
    if_false]
  rw [if_pos ⟨hdim, hcnt⟩, hloop]
  exact ⟨_, rfl, rfl, rfl, rfl, hcnt⟩

/-- Witness for c10_null_postproc_early_return: a detect request with
one occupied entry and no detect_post_proc. -/
theorem c10_null_postproc_early_return_witness :
    ∃ r, infer_completion_callback cfgDetectNoPost envOK [defaultTask]
        { inferences := [{ taskId := 0, bbox_index := 0 }],
          inference_count := 1 } = some r ∧
      r.returned = false ∧
      r.req = { inferences := [{ taskId := 0, bbox_index := 0 }],
                inference_count := 1 } ∧
      r.freed = 0 ∧
      r.freed < (OVRequestItem.mk [{ taskId := 0, bbox_index := 0 }] 1).inference_count :=
  c10_null_postproc_early_return cfgDetectNoPost envOK [defaultTask] _
    (by decide) (by decide) (by decide) (by decide) (by decide)

/-! ### Claim about task decomposition -/

/-- Claim C5, code-bug evaluation: a classification task whose only
bounding box exceeds the frame height (y + h = 60 over height 50) is
accepted by contain_valid_detection_bbox, because the source checks the
vertical extent against frame->width (100); decomposition therefore
creates one SubInference and sets inference_todo = 1, where the claim
requires zero SubInferences and inference_todo = 0 for a region out of
the sample bounds. -/
theorem c5_oob_bbox_not_rejected :
    contain_valid_detection_bbox oobFrame = true ∧
    (∃ bs, oobFrame.bboxes = some bs ∧
      ∃ b ∈ bs, oobFrame.height ≤ b.y + b.h) ∧
    (extract_inference_from_task DFT_ANALYTICS_CLASSIFY 0 oobTask none
        []).1.inference_todo = 1 ∧
    (extract_inference_from_task DFT_ANALYTICS_CLASSIFY 0 oobTask none
        []).2 = [{ taskId := 0, bbox_index := 0 }] := by
  refine ⟨by decide, ⟨_, rfl, ?_⟩, by decide, by decide⟩
  refine ⟨_, List.mem_singleton_self _, by decide⟩

/-! ### Claims about dispatch -/

/-- Claim C4 counterexample: executing with an empty pending queue after
the caller popped the last pool slot leaves the pool empty — the slot is
not released back (it is freed), so the pool population shrinks, where
the claim requires the slot back in the pool. -/
theorem c4_counterexample_slot_destroyed :
    (execute_model_ov cfgFrame4 envOK { inferences := [], inference_count := 0 }
        (initState 0)).map (fun o => (o.st.request_queue, o.destroyedSlot))
      = some ([], true) ∧
    ([] : List OVRequestItem) ≠ [{ inferences := [], inference_count := 0 }] := by
  constructor
  · rfl
  · decide

/-- Claim C4 (amended): with an empty pending inference queue,
execute_model_ov is a no-op on the scheduler state and returns success,
but the acquired slot is destroyed (its engine handle freed and the item
deallocated) rather than released back to the pool, so the pool
population decreases by the popped slot. -/
theorem c4_empty_queue_noop (cfg : OVConfig) (env : EngineEnv)
    (req : OVRequestItem) (st : OVModelState)
    (hq : st.inference_queue = []) :
    execute_model_ov cfg env req st
      = some { ret := DNN_SUCCESS, st := st, destroyedSlot := true,
               dispatched := false, ranCallbackInline := false } := by
  simp [execute_model_ov, hq]

/-- Witness for c4_empty_queue_noop on a freshly initialised model with
two slots. -/
theorem c4_empty_queue_noop_witness :
    execute_model_ov cfgFrame4 envOK { inferences := [], inference_count := 0 }
        (initState 2)
      = some { ret := DNN_SUCCESS, st := initState 2, destroyedSlot := true,
               dispatched := false, ranCallbackInline := false } :=
  c4_empty_queue_noop cfgFrame4 envOK _ (initState 2) rfl

/-- The completion routine returns some result whenever the output blob
calls succeed and the batch-dimension asserts hold. -/
theorem callback_isSome_of (cfg : OVConfig) (env : EngineEnv)
    (tasks : List TaskItem) (req : OVRequestItem)
    (hblob : env.cb_blob_ok = true) (h1 : 1 ≤ req.inference_count)
    (h2 : req.inference_count ≤ env.out_dims.d0) :
    ∃ cb, infer_completion_callback cfg env tasks req = some cb := by
  simp only [infer_completion_callback, hblob, Bool.not_true, Bool.false_eq_true,
    if_false, if_pos (And.intro h2 h1)]
  split <;> exact ⟨_, rfl⟩

/-- Claim C8: a synchronous execution whose engine run succeeds invokes
the completion routine inline and returns DNN_SUCCESS exactly when the
front task (the task whose inference was peeked before the fill) has
inference_done equal to inference_todo afterwards. -/
theorem c8_sync_inline_completion (cfg : OVConfig) (env : EngineEnv)
    (req : OVRequestItem) (st : OVModelState) (inf : InferenceItem)
    (rest : List InferenceItem)
    (hq : st.inference_queue = inf :: rest)
    (hsync : (getTask st.tasks inf.taskId).async = false)
    (hblob : env.get_blob_ok = true) (hrun : env.run_ok = true)
    (hB : 1 ≤ cfg.batch_size) (hcb : env.cb_blob_ok = true)
    (hdim : min cfg.batch_size st.inference_queue.length ≤ env.out_dims.d0) :
    ∃ cb : CbResult,
      infer_completion_callback cfg env st.tasks
          { inferences := writeSeq req.inferences 0
              (st.inference_queue.take
                (min cfg.batch_size st.inference_queue.length)),
            inference_count := min cfg.batch_size st.inference_queue.length }
        = some cb ∧
      execute_model_ov cfg env req st = some
        { ret := if doneOf cb.tasks inf.taskId = todoOf cb.tasks inf.taskId
                 then DNN_SUCCESS else DNN_ERROR,
          st := { st with
                  inference_queue := st.inference_queue.drop
                    (min cfg.batch_size st.inference_queue.length),
                  tasks := cb.tasks,
                  request_queue :=
                    if cb.returned then st.request_queue ++ [cb.req]
                    else st.request_queue },
          destroyedSlot := false, dispatched := false,
          ranCallbackInline := true } := by
  obtain ⟨rq, tq, iq, ts, fl⟩ := st
  simp only at hq
  subst hq
  simp only [List.length_cons] at hdim ⊢
  have hq' : (inf :: rest) ≠ ([] : List InferenceItem) := by simp
  have hfill := fill_model_input_ov_spec env cfg.batch_size req (inf :: rest)
    hq' hblob
  rw [if_neg (by simp only [List.length_cons]; omega)] at hfill
  obtain ⟨cb, hcbeq⟩ := callback_isSome_of cfg env ts
    { inferences := writeSeq req.inferences 0
        ((inf :: rest).take (min cfg.batch_size (rest.length + 1))),
      inference_count := min cfg.batch_size (rest.length + 1) }
    hcb (by simp only []; omega) (by simpa using hdim)
  refine ⟨cb, by simpa using hcbeq, ?_⟩
  simp only [execute_model_ov, hsync, Bool.false_eq_true, if_false, hfill,
    List.length_cons, hrun, Bool.not_true]
  rw [hcbeq]

/-- Witness for c8_sync_inline_completion on syncSt. -/
theorem c8_sync_inline_completion_witness :
    ∃ cb : CbResult,
      infer_completion_callback cfgFrame1 envOK syncSt.tasks
          { inferences := writeSeq freshReq.inferences 0
              (syncSt.inference_queue.take
                (min cfgFrame1.batch_size syncSt.inference_queue.length)),
            inference_count :=
              min cfgFrame1.batch_size syncSt.inference_queue.length }
        = some cb ∧
      execute_model_ov cfgFrame1 envOK freshReq syncSt = some
        { ret := if doneOf cb.tasks (InferenceItem.mk 0 0).taskId
                   = todoOf cb.tasks (InferenceItem.mk 0 0).taskId
                 then DNN_SUCCESS else DNN_ERROR,
          st := { syncSt with
                  inference_queue := syncSt.inference_queue.drop
                    (min cfgFrame1.batch_size syncSt.inference_queue.length),
                  tasks := cb.tasks,
                  request_queue :=
                    if cb.returned then syncSt.request_queue ++ [cb.req]
                    else syncSt.request_queue },
          destroyedSlot := false, dispatched := false,
          ranCallbackInline := true } :=
  c8_sync_inline_completion cfgFrame1 envOK freshReq syncSt
    { taskId := 0, bbox_index := 0 } [] rfl (by decide) rfl rfl
    (by decide) rfl (by decide)

/-- Claim C7: flush on an empty pending queue is a no-op returning
success; on a non-empty queue it pops exactly one slot from the pool,
runs the fill once (consuming min(k, batch_size) pending items, possibly
fewer than batch_size), dispatches that slot asynchronously exactly
once, and returns success. -/
theorem c7_flush_once (cfg : OVConfig) (env : EngineEnv) (st : OVModelState)
    (hB : 1 ≤ cfg.batch_size) (hblob : env.get_blob_ok = true)
    (hscb : env.set_cb_ok = true) (hrun : env.run_ok = true) :
    (st.inference_queue = [] →
      ff_dnn_flush_ov cfg env st = some (DNN_SUCCESS, st, false)) ∧
    (∀ req pool, st.request_queue = req :: pool → st.inference_queue ≠ [] →
      ff_dnn_flush_ov cfg env st = some (DNN_SUCCESS,
        { st with
          request_queue := pool,
          inference_queue := st.inference_queue.drop
            (min cfg.batch_size st.inference_queue.length),
          in_flight := st.in_flight ++
            [{ inferences := writeSeq req.inferences 0
                 (st.inference_queue.take
                   (min cfg.batch_size st.inference_queue.length)),
               inference_count :=
                 min cfg.batch_size st.inference_queue.length }] },
        true)) := by
  constructor
  · intro hq
    simp [ff_dnn_flush_ov, hq]
  · intro req pool hpool hq
    have hlen : ¬ (st.inference_queue.length = 0) := by
      simpa [List.length_eq_zero] using hq
    have hfill := fill_model_input_ov_spec env cfg.batch_size req
      st.inference_queue hq hblob
    have hqlen : 1 ≤ st.inference_queue.length := by omega
    rw [if_neg (by omega)] at hfill
    simp only [ff_dnn_flush_ov, hlen, if_neg, not_false_iff, hpool, hfill,
      hscb, hrun, Bool.not_true, Bool.false_eq_true, if_false]

/-- Witness for c7_flush_once on asyncSt extended with one pool slot. -/
theorem c7_flush_once_witness :
    (({ asyncSt with request_queue := [freshReq] } : OVModelState).inference_queue = [] →
      ff_dnn_flush_ov cfgFrame4 envOK { asyncSt with request_queue := [freshReq] }
        = some (DNN_SUCCESS, { asyncSt with request_queue := [freshReq] }, false)) ∧
    (∀ req pool,
      ({ asyncSt with request_queue := [freshReq] } : OVModelState).request_queue
        = req :: pool →
      ({ asyncSt with request_queue := [freshReq] } : OVModelState).inference_queue ≠ [] →
      ff_dnn_flush_ov cfgFrame4 envOK { asyncSt with request_queue := [freshReq] }
        = some (DNN_SUCCESS,
          { { asyncSt with request_queue := [freshReq] } with
            request_queue := pool,
            inference_queue :=
              ({ asyncSt with request_queue := [freshReq] } : OVModelState).inference_queue.drop
                (min cfgFrame4.batch_size
                  ({ asyncSt with request_queue := [freshReq] } : OVModelState).inference_queue.length),
            in_flight :=
              ({ asyncSt with request_queue := [freshReq] } : OVModelState).in_flight ++
                [{ inferences := writeSeq req.inferences 0
                     (({ asyncSt with request_queue := [freshReq] } : OVModelState).inference_queue.take
                       (min cfgFrame4.batch_size
                         ({ asyncSt with request_queue := [freshReq] } : OVModelState).inference_queue.length)),
                   inference_count :=
                     min cfgFrame4.batch_size
                       ({ asyncSt with request_queue := [freshReq] } : OVModelState).inference_queue.length }] },
          true)) :=
  c7_flush_once cfgFrame4 envOK { asyncSt with request_queue := [freshReq] }
    (by decide) rfl rfl rfl

/-- Claim C3 counterexample: a dispatch that fails at the
callback-registration step pushes the slot back with occupancy 1, not 0
— the claim says the slot occupancy is reset to 0. -/
theorem c3_counterexample_occupancy_not_reset :
    (execute_model_ov cfgFrame1 { envOK with set_cb_ok := false } freshReq
        asyncSt).map
        (fun o => (o.ret, o.st.request_queue.map OVRequestItem.inference_count))
      = some (DNN_ERROR, [1]) ∧ (1 : Nat) ≠ 0 := by
  constructor
  · rfl
  · decide

/-! ### Task-store and counting lemmas -/

theorem getTask_append_lt (tasks extra : List TaskItem) (tid : Nat)
    (h : tid < tasks.length) :
    getTask (tasks ++ extra) tid = getTask tasks tid := by
  simp [getTask, List.getD, List.getElem?_append, h]

theorem getTask_append_self (tasks : List TaskItem) (t : TaskItem) :
    getTask (tasks ++ [t]) tasks.length = t := by
  simp [getTask, List.getD]

theorem getTask_of_le (tasks : List TaskItem) (tid : Nat)
    (h : tasks.length ≤ tid) : getTask tasks tid = defaultTask := by
  simp [getTask, List.getD, List.getElem?_eq_none h]

theorem getTask_set_self (tasks : List TaskItem) (tid : Nat) (t : TaskItem)
    (h : tid < tasks.length) : getTask (tasks.set tid t) tid = t := by
  simp [getTask, List.getD, List.getElem?_set_self', List.getElem?_eq_getElem,
    h]

theorem getTask_set_ne (tasks : List TaskItem) (tid tid2 : Nat) (t : TaskItem)
    (h : tid ≠ tid2) : getTask (tasks.set tid t) tid2 = getTask tasks tid2 := by
  simp [getTask, List.getD, List.getElem?_set_ne h]

theorem set_append_length (tasks : List TaskItem) (a b : TaskItem) :
    (tasks ++ [a]).set tasks.length b = tasks ++ [b] := by
  induction tasks with
  | nil => simp
  | cons x l ih => simp [ih]

theorem length_bumpDone (tasks : List TaskItem) (tid : Nat) :
    (bumpDone tasks tid).length = tasks.length := by
  simp [bumpDone]

theorem todoOf_bumpDone (tasks : List TaskItem) (t0 tid : Nat) :
    todoOf (bumpDone tasks t0) tid = todoOf tasks tid := by
  unfold todoOf bumpDone
  by_cases h0 : t0 < tasks.length
  · by_cases h : t0 = tid
    · subst h
      rw [getTask_set_self _ _ _ h0]
    · rw [getTask_set_ne _ _ _ _ h]
  · rw [List.set_eq_of_length_le (by omega)]

theorem doneOf_bumpDone (tasks : List TaskItem) (t0 tid : Nat) :
    doneOf (bumpDone tasks t0) tid
      = if tid = t0 ∧ t0 < tasks.length then doneOf tasks tid + 1
        else doneOf tasks tid := by
  unfold doneOf bumpDone
  by_cases h0 : t0 < tasks.length
  · by_cases h : tid = t0
    · subst h
      rw [getTask_set_self _ _ _ h0, if_pos ⟨rfl, h0⟩]
    · rw [getTask_set_ne _ _ _ _ (fun he => h he.symm),
          if_neg (fun hc => h hc.1)]
  · rw [List.set_eq_of_length_le (by omega), if_neg (fun hc => h0 hc.2)]

theorem countFor_nil (tid : Nat) : countFor tid [] = 0 := rfl

theorem countFor_cons (tid : Nat) (inf : InferenceItem)
    (l : List InferenceItem) :
    countFor tid (inf :: l)
      = (if inf.taskId = tid then 1 else 0) + countFor tid l := by
  by_cases h : inf.taskId = tid
  · simp [countFor, List.filter_cons, h]
    omega
  · simp [countFor, List.filter_cons, h]

theorem countFor_append (tid : Nat) (l1 l2 : List InferenceItem) :
    countFor tid (l1 ++ l2) = countFor tid l1 + countFor tid l2 := by
  simp [countFor, List.filter_append]

theorem countFor_take_drop (tid : Nat) (n : Nat) (l : List InferenceItem) :
    countFor tid (l.take n) + countFor tid (l.drop n) = countFor tid l := by
  rw [← countFor_append, List.take_append_drop]

theorem countFor_eq_zero (tid : Nat) (l : List InferenceItem)
    (h : ∀ inf ∈ l, inf.taskId ≠ tid) : countFor tid l = 0 := by
  induction l with
  | nil => rfl
  | cons a l ih =>
    rw [countFor_cons, if_neg (h a (List.mem_cons_self a l)),
      ih (fun inf hm => h inf (List.mem_cons_of_mem a hm))]

theorem countFor_pos_exists (tid : Nat) (l : List InferenceItem)
    (h : 0 < countFor tid l) : ∃ inf ∈ l, inf.taskId = tid := by
  by_contra hc
  push_neg at hc
  rw [countFor_eq_zero tid l hc] at h
  exact Nat.lt_irrefl 0 h

theorem doneOf_le_potential (st : OVModelState) (tid : Nat) :
    doneOf st.tasks tid ≤ potential st tid := by
  simp only [potential]
  omega

/-! ### Lemmas about the completion loop -/

theorem cb_loop_bounds (cfg : OVConfig) :
    ∀ (infs : List InferenceItem) (tasks : List TaskItem) (f : Nat),
      (cb_loop cfg infs tasks f).1.length = tasks.length ∧
      (∀ tid, todoOf (cb_loop cfg infs tasks f).1 tid = todoOf tasks tid) ∧
      (∀ tid, doneOf tasks tid ≤ doneOf (cb_loop cfg infs tasks f).1 tid) ∧
      (∀ tid, doneOf (cb_loop cfg infs tasks f).1 tid
        ≤ doneOf tasks tid + countFor tid infs)
  | [], tasks, f => by simp [cb_loop, countFor_nil]
  | inf :: rest, tasks, f => by
    have hlb := length_bumpDone tasks inf.taskId
    by_cases hp : post_missing cfg = true
    · simp only [cb_loop, hp, if_pos]
      refine ⟨hlb, fun tid => todoOf_bumpDone tasks inf.taskId tid,
        fun tid => ?_, fun tid => ?_⟩
      · rw [doneOf_bumpDone]
        split <;> omega
      · rw [doneOf_bumpDone, countFor_cons]
        split_ifs <;> omega
    · have hp' : post_missing cfg = false := by
        revert hp
        cases post_missing cfg <;> simp
      have ih := cb_loop_bounds cfg rest (bumpDone tasks inf.taskId) (f + 1)
      simp only [cb_loop, hp', Bool.false_eq_true, if_false]
      refine ⟨ih.1.trans hlb, fun tid => ?_, fun tid => ?_, fun tid => ?_⟩
      · rw [ih.2.1 tid, todoOf_bumpDone]
      · refine le_trans ?_ (ih.2.2.1 tid)
        rw [doneOf_bumpDone]
        split <;> omega
      · refine le_trans (ih.2.2.2 tid) ?_
        rw [doneOf_bumpDone, countFor_cons]
        split_ifs <;> omega

theorem cb_loop_complete (cfg : OVConfig) (hp : post_missing cfg = false) :
    ∀ (infs : List InferenceItem) (tasks : List TaskItem) (f : Nat),
      (∀ inf ∈ infs, inf.taskId < tasks.length) →
      (cb_loop cfg infs tasks f).2.2 = true ∧
      (cb_loop cfg infs tasks f).2.1 = f + infs.length ∧
      ∀ tid, doneOf (cb_loop cfg infs tasks f).1 tid
        = doneOf tasks tid + countFor tid infs
  | [], tasks, f, _ => by simp [cb_loop, countFor_nil]
  | inf :: rest, tasks, f, hmem => by
    have hin : inf.taskId < tasks.length := hmem inf (List.mem_cons_self _ _)
    have hmem2 : ∀ i ∈ rest, i.taskId < (bumpDone tasks inf.taskId).length := by
      intro i hi
      rw [length_bumpDone]
      exact hmem i (List.mem_cons_of_mem _ hi)
    have ih := cb_loop_complete cfg hp rest (bumpDone tasks inf.taskId) (f + 1)
      hmem2
    simp only [cb_loop, hp, Bool.false_eq_true, if_false]
    refine ⟨ih.1, by rw [ih.2.1]; simp [List.length_cons]; omega, fun tid => ?_⟩
    rw [ih.2.2 tid, doneOf_bumpDone, countFor_cons]
    split_ifs <;> omega

theorem callback_bounds (cfg : OVConfig) (env : EngineEnv)
    (tasks : List TaskItem) (req : OVRequestItem) (cb : CbResult)
    (h : infer_completion_callback cfg env tasks req = some cb) :
    cb.tasks.length = tasks.length ∧
    (∀ tid, todoOf cb.tasks tid = todoOf tasks tid) ∧
    (∀ tid, doneOf tasks tid ≤ doneOf cb.tasks tid) ∧
    (∀ tid, doneOf cb.tasks tid
      ≤ doneOf tasks tid + countFor tid (liveInfs req)) := by
  cases hb : env.cb_blob_ok with
  | false =>
    simp only [infer_completion_callback, hb, Bool.not_false, if_pos] at h
    injection h with h2
    subst h2
    simp
  | true =>
    simp only [infer_completion_callback, hb, Bool.not_true, Bool.false_eq_true,
      if_false] at h
    by_cases hg : req.inference_count ≤ env.out_dims.d0
        ∧ 1 ≤ req.inference_count
    · rw [if_pos hg] at h
      have hbl := cb_loop_bounds cfg (liveInfs req) tasks 0
      split at h <;> injection h with h2 <;> subst h2 <;>
        exact ⟨hbl.1, hbl.2.1, hbl.2.2.1, hbl.2.2.2⟩
    · rw [if_neg hg] at h
      exact absurd h (by simp)

theorem liveInfs_filled (req : OVRequestItem) (q : List InferenceItem)
    (n : Nat) (h : n ≤ q.length) :
    liveInfs { inferences := writeSeq req.inferences 0 (q.take n),
               inference_count := n } = q.take n := by
  have hlen : (q.take n).length = n := by
    simp only [List.length_take]
    omega
  simp only [liveInfs, writeSeq_zero, List.take_append_eq_append_take,
    List.take_take, hlen]
  simp

/-! ### The preservation framework -/

theorem countFor_eq_length (tid : Nat) (l : List InferenceItem)
    (h : ∀ a ∈ l, a.taskId = tid) : countFor tid l = l.length := by
  induction l with
  | nil => rfl
  | cons a l ih =>
    rw [countFor_cons, if_pos (h a (List.mem_cons_self a l)),
      ih (fun x hm => h x (List.mem_cons_of_mem a hm)), List.length_cons]
    omega

theorem inflightCount_nil (tid : Nat) : inflightCount tid [] = 0 := rfl

theorem inflightCount_cons (tid : Nat) (r : OVRequestItem)
    (l : List OVRequestItem) :
    inflightCount tid (r :: l)
      = countFor tid (liveInfs r) + inflightCount tid l := by
  simp [inflightCount]

theorem inflightCount_append (tid : Nat) (l1 l2 : List OVRequestItem) :
    inflightCount tid (l1 ++ l2)
      = inflightCount tid l1 + inflightCount tid l2 := by
  simp [inflightCount]

theorem inflightCount_eq_zero (tid : Nat) (l : List OVRequestItem)
    (h : ∀ r ∈ l, ∀ inf ∈ liveInfs r, inf.taskId ≠ tid) :
    inflightCount tid l = 0 := by
  induction l with
  | nil => rfl
  | cons r l ih =>
    rw [inflightCount_cons,
      countFor_eq_zero tid _ (h r (List.mem_cons_self r l)),
      ih (fun x hm => h x (List.mem_cons_of_mem r hm))]

theorem list_get?_decomp :
    ∀ (l : List OVRequestItem) (i : Nat) (r : OVRequestItem),
      l.get? i = some r → l = l.take i ++ r :: l.drop (i + 1)
  | [], i, r, h => by simp at h
  | a :: l, 0, r, h => by
    simp only [List.get?_cons_zero, Option.some.injEq] at h
    subst h
    simp
  | a :: l, i + 1, r, h => by
    simp only [List.get?_cons_succ] at h
    have ih := list_get?_decomp l i r h
    simp only [List.take_succ_cons, List.drop_succ_cons, List.cons_append,
      List.cons.injEq, true_and]
    exact ih

theorem evolves_refl (st : OVModelState) : Evolves st st :=
  ⟨Nat.le_refl _, fun _ _ => ⟨rfl, Nat.le_refl _, Nat.le_refl _⟩⟩

theorem evolves_trans {a b c : OVModelState} (h1 : Evolves a b)
    (h2 : Evolves b c) : Evolves a c := by
  refine ⟨h1.1.trans h2.1, fun tid ht => ?_⟩
  have hb := h1.2 tid ht
  have hc := h2.2 tid (Nat.lt_of_lt_of_le ht h1.1)
  exact ⟨hc.1.trans hb.1, hb.2.1.trans hc.2.1, hc.2.2.trans hb.2.2⟩

theorem preserves_refl (st : OVModelState) : Preserves st st :=
  ⟨evolves_refl st, id⟩

theorem preserves_trans {a b c : OVModelState} (h1 : Preserves a b)
    (h2 : Preserves b c) : Preserves a c :=
  ⟨evolves_trans h1.1 h2.1, fun hi => h2.2 (h1.2 hi)⟩

/-- Transitions that touch only the request pool and the task FIFO
preserve everything. -/
theorem preserves_of_queues (st st' : OVModelState)
    (ht : st'.tasks = st.tasks)
    (hq : st'.inference_queue = st.inference_queue)
    (hf : st'.in_flight = st.in_flight) : Preserves st st' := by
  have hpot : ∀ tid, potential st' tid = potential st tid := by
    intro tid
    simp [potential, ht, hq, hf]
  refine ⟨⟨by rw [ht], fun tid _ => ⟨by rw [ht], by rw [ht], (hpot tid).le⟩⟩,
    fun hi => ?_⟩
  refine ⟨⟨?_, ?_⟩, fun tid hlt => ?_⟩
  · rw [hq, ht]
    exact hi.1.1
  · rw [hf, ht]
    exact hi.1.2
  · rw [ht] at hlt ⊢
    rw [hpot tid]
    exact hi.2 tid hlt

/-- An error path: some prefix of the pending queue is consumed and
nothing new is in flight (the consumed items are dropped). -/
theorem preserves_err (st : OVModelState) (rq' : List OVRequestItem)
    (tq' : List Nat) (n : Nat) :
    Preserves st
      { request_queue := rq', task_queue := tq',
        inference_queue := st.inference_queue.drop n, tasks := st.tasks,
        in_flight := st.in_flight } := by
  have hcnt : ∀ tid, countFor tid (st.inference_queue.drop n)
      ≤ countFor tid st.inference_queue := by
    intro tid
    have := countFor_take_drop tid n st.inference_queue
    omega
  have hpot : ∀ tid, potential
      { request_queue := rq', task_queue := tq',
        inference_queue := st.inference_queue.drop n, tasks := st.tasks,
        in_flight := st.in_flight } tid ≤ potential st tid := by
    intro tid
    simp only [potential]
    have := hcnt tid
    omega
  refine ⟨⟨Nat.le_refl _, fun tid _ => ⟨rfl, Nat.le_refl _, hpot tid⟩⟩,
    fun hi => ⟨⟨?_, hi.1.2⟩, fun tid hlt => (hpot tid).trans (hi.2 tid hlt)⟩⟩
  intro inf hm
  exact hi.1.1 inf (List.drop_subset n _ hm)

/-- A successful asynchronous dispatch: the consumed prefix moves from
the pending queue into the in-flight request, item for item. -/
theorem preserves_dispatch (st : OVModelState) (rq' : List OVRequestItem)
    (req1 : OVRequestItem) (n : Nat)
    (hlive : liveInfs req1 = st.inference_queue.take n) :
    Preserves st
      { request_queue := rq', task_queue := st.task_queue,
        inference_queue := st.inference_queue.drop n, tasks := st.tasks,
        in_flight := st.in_flight ++ [req1] } := by
  have hpot : ∀ tid, potential
      { request_queue := rq', task_queue := st.task_queue,
        inference_queue := st.inference_queue.drop n, tasks := st.tasks,
        in_flight := st.in_flight ++ [req1] } tid = potential st tid := by
    intro tid
    simp only [potential, inflightCount_append, inflightCount_cons,
      inflightCount_nil, hlive]
    have := countFor_take_drop tid n st.inference_queue
    omega
  refine ⟨⟨Nat.le_refl _, fun tid _ => ⟨rfl, Nat.le_refl _, (hpot tid).le⟩⟩,
    fun hi => ⟨⟨?_, ?_⟩, fun tid hlt => (hpot tid).le.trans (hi.2 tid hlt)⟩⟩
  · intro inf hm
    exact hi.1.1 inf (List.drop_subset n _ hm)
  · intro r hr inf hm
    rcases List.mem_append.mp hr with hr1 | hr1
    · exact hi.1.2 r hr1 inf hm
    · rw [List.mem_singleton.mp hr1, hlive] at hm
      exact hi.1.1 inf (List.take_subset n _ hm)

/-- The synchronous inline completion: the consumed prefix is consumed
by the completion routine, whose done increments are bounded by the
occupancy it processed. -/
theorem preserves_sync (cfg : OVConfig) (env : EngineEnv)
    (st : OVModelState) (rq' : List OVRequestItem) (req1 : OVRequestItem)
    (n : Nat) (cb : CbResult)
    (hlive : liveInfs req1 = st.inference_queue.take n)
    (hcb : infer_completion_callback cfg env st.tasks req1 = some cb) :
    Preserves st
      { request_queue := rq', task_queue := st.task_queue,
        inference_queue := st.inference_queue.drop n, tasks := cb.tasks,
        in_flight := st.in_flight } := by
  obtain ⟨hlen, htodo, hmono, hbound⟩ :=
    callback_bounds cfg env st.tasks req1 cb hcb
  rw [hlive] at hbound
  have hpot : ∀ tid, potential
      { request_queue := rq', task_queue := st.task_queue,
        inference_queue := st.inference_queue.drop n, tasks := cb.tasks,
        in_flight := st.in_flight } tid ≤ potential st tid := by
    intro tid
    simp only [potential]
    have h1 := hbound tid
    have h2 := countFor_take_drop tid n st.inference_queue
    omega
  refine ⟨⟨hlen.ge.trans (Nat.le_refl _), fun tid hlt =>
      ⟨htodo tid, hmono tid, hpot tid⟩⟩,
    fun hi => ⟨⟨?_, ?_⟩, fun tid hlt => ?_⟩⟩
  · intro inf hm
    rw [hlen]
    exact hi.1.1 inf (List.drop_subset n _ hm)
  · intro r hr inf hm
    rw [hlen]
    exact hi.1.2 r hr inf hm
  · rw [hlen] at hlt
    rw [htodo tid]
    exact (hpot tid).trans (hi.2 tid hlt)

/-! ### Lemmas about task decomposition -/

theorem classify_loop_spec (tid : Nat) (target : Option String) :
    ∀ (bs : List AVDetectionBBox) (i : Nat) (task : TaskItem)
      (q : List InferenceItem),
      ∃ added : List InferenceItem,
        (classify_loop tid target bs i task q).2 = q ++ added ∧
        (∀ a ∈ added, a.taskId = tid) ∧
        (classify_loop tid target bs i task q).1.inference_todo
          = task.inference_todo + added.length ∧
        (classify_loop tid target bs i task q).1.inference_done
          = task.inference_done
  | [], i, task, q => ⟨[], by simp [classify_loop], by simp,
      by simp [classify_loop], by simp [classify_loop]⟩
  | bbox :: rest, i, task, q => by
    by_cases hskip : (match target with
        | some t => !av_strncasecmp_eq bbox.detect_label t
        | none => false) = true
    · obtain ⟨added, h1, h2, h3, h4⟩ :=
        classify_loop_spec tid target rest (i + 1) task q
      exact ⟨added, by simp only [classify_loop, hskip, if_pos]; exact h1,
        h2, by simp only [classify_loop, hskip, if_pos]; exact h3,
        by simp only [classify_loop, hskip, if_pos]; exact h4⟩
    · obtain ⟨added, h1, h2, h3, h4⟩ :=
        classify_loop_spec tid target rest (i + 1)
          { task with inference_todo := task.inference_todo + 1 }
          (q ++ [{ taskId := tid, bbox_index := i }])
      refine ⟨{ taskId := tid, bbox_index := i } :: added, ?_, ?_, ?_, ?_⟩
      · simp only [classify_loop, hskip, Bool.false_eq_true, if_false]
        rw [h1, List.append_assoc]
        rfl
      · intro a hm
        rcases List.mem_cons.mp hm with hm1 | hm1
        · rw [hm1]
        · exact h2 a hm1
      · simp only [classify_loop, hskip, Bool.false_eq_true, if_false]
        rw [h3]
        simp only [List.length_cons]
        omega
      · simp only [classify_loop, hskip, Bool.false_eq_true, if_false]
        rw [h4]

theorem extract_spec (func : DNNFunctionType) (tid : Nat) (task : TaskItem)
    (target : Option String) (q : List InferenceItem) :
    ∃ added : List InferenceItem,
      (extract_inference_from_task func tid task target q).2 = q ++ added ∧
      (∀ a ∈ added, a.taskId = tid) ∧
      (extract_inference_from_task func tid task target q).1.inference_todo
        = added.length ∧
      (extract_inference_from_task func tid task target q).1.inference_done
        = 0 := by
  cases func with
  | DFT_PROCESS_FRAME =>
    exact ⟨[{ taskId := tid, bbox_index := 0 }], rfl, by simp, rfl, rfl⟩
  | DFT_ANALYTICS_DETECT =>
    exact ⟨[{ taskId := tid, bbox_index := 0 }], rfl, by simp, rfl, rfl⟩
  | DFT_ANALYTICS_CLASSIFY =>
    simp only [extract_inference_from_task]
    by_cases hval : contain_valid_detection_bbox task.in_frame = true
    · simp only [hval, Bool.not_true, Bool.false_eq_true, if_false]
      cases hbb : task.in_frame.bboxes with
      | none => exact ⟨[], by simp, by simp, by simp, by simp⟩
      | some bs =>
        obtain ⟨added, h1, h2, h3, h4⟩ := classify_loop_spec tid target bs 0
          { task with inference_todo := 0, inference_done := 0 } q
        exact ⟨added, h1, h2, by rw [h3]; simp, by rw [h4]⟩
    · have hval' : contain_valid_detection_bbox task.in_frame = false := by
        revert hval
        cases contain_valid_detection_bbox task.in_frame <;> simp
      simp only [hval', Bool.not_false, if_pos]
      exact ⟨[], by simp, by simp, by simp, by simp⟩

/-- Submitting a task: the task store grows by the decomposed task, the
pending queue by its inference items; any change to the task FIFO and
the request pool is irrelevant to the invariant. -/
theorem preserves_append_extract (st : OVModelState)
    (func : DNNFunctionType) (target : Option String) (task0 : TaskItem)
    (rq' : List OVRequestItem) (tq' : List Nat) :
    Preserves st
      { request_queue := rq', task_queue := tq',
        inference_queue :=
          (extract_inference_from_task func st.tasks.length task0 target
            st.inference_queue).2,
        tasks := st.tasks ++
          [(extract_inference_from_task func st.tasks.length task0 target
            st.inference_queue).1],
        in_flight := st.in_flight } := by
  obtain ⟨added, h1, h2, h3, h4⟩ :=
    extract_spec func st.tasks.length task0 target st.inference_queue
  set er := extract_inference_from_task func st.tasks.length task0 target
    st.inference_queue with her
  have hcnt : ∀ tid, tid ≠ st.tasks.length →
      countFor tid er.2 = countFor tid st.inference_queue := by
    intro tid hne
    rw [h1, countFor_append,
      countFor_eq_zero tid added (fun a hm => by rw [h2 a hm]; omega)]
    omega
  have hpot : ∀ tid, tid < st.tasks.length → potential
      { request_queue := rq', task_queue := tq', inference_queue := er.2,
        tasks := st.tasks ++ [er.1], in_flight := st.in_flight } tid
      = potential st tid := by
    intro tid hlt
    simp only [potential, doneOf, todoOf, getTask_append_lt _ _ _ hlt,
      hcnt tid (by omega)]
  constructor
  · refine ⟨by simp, fun tid hlt => ?_⟩
    refine ⟨?_, ?_, (hpot tid hlt).le⟩
    · simp only [todoOf, getTask_append_lt _ _ _ hlt]
    · simp only [doneOf, getTask_append_lt _ _ _ hlt]
      exact Nat.le_refl _
  · intro hi
    refine ⟨⟨?_, ?_⟩, fun tid hlt => ?_⟩
    · intro inf hm
      rw [h1] at hm
      rcases List.mem_append.mp hm with hm1 | hm1
      · have := hi.1.1 inf hm1
        simp only [List.length_append, List.length_cons, List.length_nil]
        omega
      · rw [h2 inf hm1]
        simp
    · intro r hr inf hm
      have := hi.1.2 r hr inf hm
      simp only [List.length_append, List.length_cons, List.length_nil]
      omega
    · simp only [List.length_append, List.length_cons, List.length_nil] at hlt
      by_cases hend : tid < st.tasks.length
      · rw [hpot tid hend]
        simp only [todoOf, getTask_append_lt _ _ _ hend]
        exact hi.2 tid hend
      · have htid : tid = st.tasks.length := by omega
        subst htid
        simp only [potential, todoOf, doneOf, getTask_append_self]
        rw [h4, h1, countFor_append,
          countFor_eq_zero _ st.inference_queue
            (fun a hm => by have := hi.1.1 a hm; omega),
          countFor_eq_length _ added h2,
          inflightCount_eq_zero _ st.in_flight
            (fun r hr inf hm => by have := hi.1.2 r hr inf hm; omega),
          h3]
        omega

/-- Every terminating execute_model_ov call preserves the invariant and
evolves the task store monotonically. -/
theorem execute_preserves (cfg : OVConfig) (env : EngineEnv)
    (req : OVRequestItem) (st : OVModelState) (out : ExecOut)
    (hB : 1 ≤ cfg.batch_size)
    (h : execute_model_ov cfg env req st = some out) :
    Preserves st out.st := by
  obtain ⟨rq, tq, iq, ts, fl⟩ := st
  cases iq with
  | nil =>
    simp only [execute_model_ov] at h
    injection h with h2
    subst h2
    exact preserves_refl _
  | cons inf rest =>
    have hmle : min cfg.batch_size (inf :: rest).length ≤ (inf :: rest).length :=
      Nat.min_le_right _ _
    have hm1 : 1 ≤ min cfg.batch_size (inf :: rest).length := by
      simp only [List.length_cons]
      omega
    cases hgb : env.get_blob_ok with
    | false =>
      have hfill : fill_model_input_ov env cfg.batch_size req (inf :: rest)
          = some (DNN_ERROR, req, inf :: rest, []) := by
        simp [fill_model_input_ov, hgb]
      simp only [execute_model_ov, hfill] at h
      split at h <;> injection h with h2 <;> subst h2 <;>
        exact preserves_of_queues _ _ rfl rfl rfl
    | true =>
      have hfill := fill_model_input_ov_spec env cfg.batch_size req
        (inf :: rest) (by simp) hgb
      rw [if_neg (by omega)] at hfill
      have hlive := liveInfs_filled req (inf :: rest)
        (min cfg.batch_size (inf :: rest).length) hmle
      simp only [execute_model_ov, hfill] at h
      split at h
      · -- front task asynchronous
        cases hscb : env.set_cb_ok with
        | false =>
          rw [hscb] at h
          simp only [Bool.not_false, if_pos] at h
          injection h with h2
          subst h2
          exact preserves_err _ _ _ _
        | true =>
          rw [hscb] at h
          simp only [Bool.not_true, Bool.false_eq_true, if_false] at h
          cases hrun : env.run_ok with
          | false =>
            rw [hrun] at h
            simp only [Bool.not_false, if_pos] at h
            injection h with h2
            subst h2
            exact preserves_err _ _ _ _
          | true =>
            rw [hrun] at h
            simp only [Bool.not_true, Bool.false_eq_true, if_false] at h
            injection h with h2
            subst h2
            exact preserves_dispatch _ _ _ _ hlive
      · -- front task synchronous
        cases hrun : env.run_ok with
        | false =>
          rw [hrun] at h
          simp only [Bool.not_false, if_pos] at h
          injection h with h2
          subst h2
          exact preserves_err _ _ _ _
        | true =>
          rw [hrun] at h
          simp only [Bool.not_true, Bool.false_eq_true, if_false] at h
          cases hcb : infer_completion_callback cfg env ts
              { inferences := writeSeq req.inferences 0
                  ((inf :: rest).take (min cfg.batch_size (inf :: rest).length)),
                inference_count := min cfg.batch_size (inf :: rest).length } with
          | none =>
            rw [hcb] at h
            exact absurd h (by simp)
          | some cb =>
            rw [hcb] at h
            injection h with h2
            subst h2
            exact preserves_sync cfg env _ _ _ _ cb hlive hcb

/-- The dispatch loop preserves the invariant. -/
theorem dispatch_while_preserves (cfg : OVConfig) (env : EngineEnv)
    (hB : 1 ≤ cfg.batch_size) :
    ∀ (fuel : Nat) (st : OVModelState) (nd : Nat) (ret : DNNReturnType)
      (st' : OVModelState) (nd' : Nat),
      dispatch_while cfg env fuel st nd = some (ret, st', nd') →
      Preserves st st'
  | 0, st, nd, ret, st', nd', h => by
    simp only [dispatch_while, Option.some.injEq, Prod.mk.injEq] at h
    obtain ⟨-, h2, -⟩ := h
    subst h2
    exact preserves_refl _
  | fuel + 1, st, nd, ret, st', nd', h => by
    simp only [dispatch_while] at h
    split at h
    · split at h
      · simp only [Option.some.injEq, Prod.mk.injEq] at h
        obtain ⟨-, h2, -⟩ := h
        subst h2
        exact preserves_refl _
      · rename_i req rest hpool
        split at h
        · simp at h
        · rename_i out hexec
          have hstep1 : Preserves st { st with request_queue := rest } :=
            preserves_of_queues _ _ rfl rfl rfl
          have hstep2 := execute_preserves cfg env req _ out hB hexec
          split at h
          · have ih := dispatch_while_preserves cfg env hB fuel out.st
              (nd + 1) ret st' nd' h
            exact preserves_trans hstep1 (preserves_trans hstep2 ih)
          · simp only [Option.some.injEq, Prod.mk.injEq] at h
            obtain ⟨-, h2, -⟩ := h
            subst h2
            exact preserves_trans hstep1 hstep2
    · simp only [Option.some.injEq, Prod.mk.injEq] at h
      obtain ⟨-, h2, -⟩ := h
      subst h2
      exact preserves_refl _

theorem submit_async_preserves (cfg : OVConfig) (env : EngineEnv)
    (p : SubmitParams) (st : OVModelState) (ret : DNNReturnType)
    (st' : OVModelState) (nd : Nat) (hB : 1 ≤ cfg.batch_size)
    (h : ff_dnn_execute_model_async_ov cfg env p st = some (ret, st', nd)) :
    Preserves st st' := by
  obtain ⟨rq, tq, iq, ts, fl⟩ := st
  simp only [ff_dnn_execute_model_async_ov] at h
  rw [set_append_length] at h
  have hmid := preserves_append_extract
    { request_queue := rq, task_queue := tq, inference_queue := iq,
      tasks := ts, in_flight := fl }
    cfg.func_type p.target (ff_dnn_fill_task p true true) rq
    (tq ++ [ts.length])
  have hd := dispatch_while_preserves cfg env hB _ _ _ _ _ _ h
  exact preserves_trans hmid hd

theorem submit_sync_preserves (cfg : OVConfig) (env : EngineEnv)
    (p : SubmitParams) (st : OVModelState) (ret : DNNReturnType)
    (st' : OVModelState) (hB : 1 ≤ cfg.batch_size)
    (h : ff_dnn_execute_model_ov cfg env p st = some (ret, st')) :
    Preserves st st' := by
  obtain ⟨rq, tq, iq, ts, fl⟩ := st
  simp only [ff_dnn_execute_model_ov] at h
  split at h
  · simp only [Option.some.injEq, Prod.mk.injEq] at h
    obtain ⟨-, h2⟩ := h
    subst h2
    exact preserves_refl _
  · split at h
    · simp only [Option.some.injEq, Prod.mk.injEq] at h
      obtain ⟨-, h2⟩ := h
      subst h2
      exact preserves_refl _
    · split at h
      · simp only [Option.some.injEq, Prod.mk.injEq] at h
        obtain ⟨-, h2⟩ := h
        subst h2
        exact preserves_append_extract _ cfg.func_type p.target
          (ff_dnn_fill_task p false true) _ _
      · rename_i rqold req pool
        split at h
        · simp at h
        · rename_i out hexec
          simp only [Option.some.injEq, Prod.mk.injEq] at h
          obtain ⟨-, h2⟩ := h
          subst h2
          refine preserves_trans (preserves_append_extract _
            cfg.func_type p.target (ff_dnn_fill_task p false true) pool tq)
            ?_
          exact execute_preserves cfg env req _ out hB hexec

theorem flush_preserves (cfg : OVConfig) (env : EngineEnv)
    (st : OVModelState) (ret : DNNReturnType) (st' : OVModelState) (b : Bool)
    (hB : 1 ≤ cfg.batch_size)
    (h : ff_dnn_flush_ov cfg env st = some (ret, st', b)) :
    Preserves st st' := by
  obtain ⟨rq, tq, iq, ts, fl⟩ := st
  cases iq with
  | nil =>
    simp only [ff_dnn_flush_ov, List.length_nil, if_pos, Option.some.injEq,
      Prod.mk.injEq] at h
    obtain ⟨-, h2, -⟩ := h
    subst h2
    exact preserves_refl _
  | cons inf rest =>
    simp only [ff_dnn_flush_ov] at h
    rw [if_neg (by simp)] at h
    cases rq with
    | nil =>
      simp only [Option.some.injEq, Prod.mk.injEq] at h
      obtain ⟨-, h2, -⟩ := h
      subst h2
      exact preserves_refl _
    | cons req pool =>
      cases hgb : env.get_blob_ok with
      | false =>
        have hfill : fill_model_input_ov env cfg.batch_size req (inf :: rest)
            = some (DNN_ERROR, req, inf :: rest, []) := by
          simp [fill_model_input_ov, hgb]
        simp only [hfill, Option.some.injEq, Prod.mk.injEq] at h
        obtain ⟨-, h2, -⟩ := h
        subst h2
        exact preserves_of_queues _ _ rfl rfl rfl
      | true =>
        have hfill := fill_model_input_ov_spec env cfg.batch_size req
          (inf :: rest) (by simp) hgb
        rw [if_neg (by simp only [List.length_cons]; omega)] at hfill
        simp only [hfill] at h
        split at h
        · simp only [Option.some.injEq, Prod.mk.injEq] at h
          obtain ⟨-, h2, -⟩ := h
          subst h2
          exact preserves_err _ _ _ _
        · split at h
          · simp only [Option.some.injEq, Prod.mk.injEq] at h
            obtain ⟨-, h2, -⟩ := h
            subst h2
            exact preserves_err _ _ _ _
          · simp only [Option.some.injEq, Prod.mk.injEq] at h
            obtain ⟨-, h2, -⟩ := h
            subst h2
            exact preserves_dispatch _ _ _ _
              (liveInfs_filled req (inf :: rest) _ (Nat.min_le_right _ _))

theorem poll_preserves (st : OVModelState) :
    Preserves st (ff_dnn_get_async_result_ov st).2.2 := by
  unfold ff_dnn_get_async_result_ov
  split
  · exact preserves_refl _
  · split
    · exact preserves_refl _
    · exact preserves_of_queues _ _ rfl rfl rfl

theorem complete_preserves (cfg : OVConfig) (env : EngineEnv)
    (st : OVModelState) (i : Nat) (st' : OVModelState)
    (h : complete_event cfg env st i = some st') : Preserves st st' := by
  simp only [complete_event] at h
  split at h
  · simp at h
  · rename_i req hget
    split at h
    · simp at h
    · rename_i cb hcb
      injection h with h2
      subst h2
      have hdecomp := list_get?_decomp st.in_flight i req hget
      obtain ⟨hlen, htodo, hmono, hbound⟩ :=
        callback_bounds cfg env st.tasks req cb hcb
      have hic : ∀ tid, inflightCount tid st.in_flight
          = inflightCount tid (st.in_flight.take i)
            + countFor tid (liveInfs req)
            + inflightCount tid (st.in_flight.drop (i + 1)) := by
        intro tid
        conv_lhs => rw [hdecomp]
        rw [inflightCount_append, inflightCount_cons]
        omega
      have hpot : ∀ tid, potential
          { st with
            tasks := cb.tasks,
            in_flight := st.in_flight.take i ++ st.in_flight.drop (i + 1),
            request_queue :=
              if cb.returned then st.request_queue ++ [cb.req]
              else st.request_queue } tid ≤ potential st tid := by
        intro tid
        simp only [potential, inflightCount_append]
        have h1 := hbound tid
        have h2 := hic tid
        omega
      refine ⟨⟨hlen.ge, fun tid hlt => ⟨htodo tid, hmono tid, hpot tid⟩⟩,
        fun hi => ⟨⟨?_, ?_⟩, fun tid hlt => ?_⟩⟩
      · intro inf hm
        rw [hlen]
        exact hi.1.1 inf hm
      · intro r hr inf hm
        rw [hlen]
        rcases List.mem_append.mp hr with hr1 | hr1
        · exact hi.1.2 r (List.take_subset i _ hr1) inf hm
        · exact hi.1.2 r (List.drop_subset (i + 1) _ hr1) inf hm
      · rw [hlen] at hlt
        rw [htodo tid]
        exact (hpot tid).trans (hi.2 tid hlt)

/-- Every observable transition preserves the invariant and evolves the
task counters monotonically. -/
theorem step_preserves (cfg : OVConfig) (hB : 1 ≤ cfg.batch_size)
    {st st' : OVModelState} (h : OVStep cfg st st') : Preserves st st' := by
  match h with
  | OVStep.submit_async env p st2 ret st3 nd hsub =>
    exact submit_async_preserves cfg env p st2 ret st3 nd hB hsub
  | OVStep.submit_sync env p st2 ret st3 hsub =>
    exact submit_sync_preserves cfg env p st2 ret st3 hB hsub
  | OVStep.flush env st2 ret st3 b hf =>
    exact flush_preserves cfg env st2 ret st3 b hB hf
  | OVStep.poll st2 => exact poll_preserves st2
  | OVStep.complete env st2 i st3 hc =>
    exact complete_preserves cfg env st2 i st3 hc

/-- The scheduling invariant holds in every reachable state. -/
theorem reachable_inv (cfg : OVConfig) (hB : 1 ≤ cfg.batch_size)
    {st : OVModelState} (h : Reachable cfg st) : Inv st := by
  induction h with
  | init n =>
    refine ⟨⟨?_, ?_⟩, ?_⟩
    · intro inf hm
      exact absurd hm (List.not_mem_nil inf)
    · intro r hr
      exact absurd hr (List.not_mem_nil r)
    · intro tid hlt
      exact absurd hlt (by simp [initState])
  | step hre hs ih => exact (step_preserves cfg hB hs).2 ih

/-- Along any sequence of transitions, existing tasks keep their todo
target, their done counter never decreases, and their outstanding
potential never grows. -/
theorem steps_evolves (cfg : OVConfig) (hB : 1 ≤ cfg.batch_size)
    {st st' : OVModelState} (h : Steps cfg st st') : Evolves st st' := by
  induction h with
  | refl => exact evolves_refl _
  | tail h12 hs ih =>
    exact evolves_trans ih (step_preserves cfg hB hs).1

/-- A successful execute on a non-empty queue always consumes at least
one pending item. -/
theorem execute_queue_shrinks (cfg : OVConfig) (env : EngineEnv)
    (req : OVRequestItem) (st : OVModelState) (out : ExecOut)
    (hB : 1 ≤ cfg.batch_size) (hne : st.inference_queue ≠ [])
    (h : execute_model_ov cfg env req st = some out)
    (hret : out.ret = DNN_SUCCESS) :
    out.st.inference_queue.length < st.inference_queue.length := by
  obtain ⟨rq, tq, iq, ts, fl⟩ := st
  cases iq with
  | nil => exact absurd rfl hne
  | cons inf rest =>
    have hm1 : 1 ≤ min cfg.batch_size (inf :: rest).length := by
      simp only [List.length_cons]
      omega
    cases hgb : env.get_blob_ok with
    | false =>
      have hfill : fill_model_input_ov env cfg.batch_size req (inf :: rest)
          = some (DNN_ERROR, req, inf :: rest, []) := by
        simp [fill_model_input_ov, hgb]
      simp only [execute_model_ov, hfill] at h
      split at h <;> injection h with h2 <;> subst h2 <;>
        exact absurd hret (by simp [execGotoErr])
    | true =>
      have hfill := fill_model_input_ov_spec env cfg.batch_size req
        (inf :: rest) (by simp) hgb
      rw [if_neg (by omega)] at hfill
      simp only [execute_model_ov, hfill] at h
      split at h
      · cases hscb : env.set_cb_ok with
        | false =>
          rw [hscb] at h
          simp only [Bool.not_false, if_pos] at h
          injection h with h2
          subst h2
          exact absurd hret (by simp [execGotoErr])
        | true =>
          rw [hscb] at h
          simp only [Bool.not_true, Bool.false_eq_true, if_false] at h
          cases hrun : env.run_ok with
          | false =>
            rw [hrun] at h
            simp only [Bool.not_false, if_pos] at h
            injection h with h2
            subst h2
            exact absurd hret (by simp [execGotoErr])
          | true =>
            rw [hrun] at h
            simp only [Bool.not_true, Bool.false_eq_true, if_false] at h
            injection h with h2
            subst h2
            simp only [List.length_drop, List.length_cons]
            omega
      · cases hrun : env.run_ok with
        | false =>
          rw [hrun] at h
          simp only [Bool.not_false, if_pos] at h
          injection h with h2
          subst h2
          exact absurd hret (by simp [execGotoErr])
        | true =>
          rw [hrun] at h
          simp only [Bool.not_true, Bool.false_eq_true, if_false] at h
          split at h
          · simp at h
          · injection h with h2
            subst h2
            simp only [List.length_drop, List.length_cons]
            omega

/-- Below the batch threshold the dispatch loop does nothing. -/
theorem dispatch_while_below (cfg : OVConfig) (env : EngineEnv)
    (fuel : Nat) (st : OVModelState) (nd : Nat)
    (h : st.inference_queue.length < cfg.batch_size) :
    dispatch_while cfg env fuel st nd = some (DNN_SUCCESS, st, nd) := by
  cases fuel with
  | zero => rfl
  | succ fuel =>
    simp only [dispatch_while]
    rw [if_neg (by omega)]

/-- When the loop returns success it has dispatched until the queue fell
below the batch threshold. -/
theorem dispatch_while_drains (cfg : OVConfig) (env : EngineEnv)
    (hB : 1 ≤ cfg.batch_size) :
    ∀ (fuel : Nat) (st : OVModelState) (nd nd' : Nat) (st' : OVModelState),
      st.inference_queue.length ≤ fuel →
      dispatch_while cfg env fuel st nd = some (DNN_SUCCESS, st', nd') →
      st'.inference_queue.length < cfg.batch_size
  | 0, st, nd, nd', st', hf, h => by
    simp only [dispatch_while, Option.some.injEq, Prod.mk.injEq] at h
    obtain ⟨-, h2, -⟩ := h
    subst h2
    omega
  | fuel + 1, st, nd, nd', st', hf, h => by
    simp only [dispatch_while] at h
    split at h
    · rename_i hcond
      split at h
      · simp at h
      · rename_i req rest hpool
        split at h
        · simp at h
        · rename_i out hexec
          have hne : st.inference_queue ≠ [] := by
            intro hnil
            rw [hnil] at hcond
            simp at hcond
            omega
          split at h
          · rename_i hret
            have hs := execute_queue_shrinks cfg env req
              { st with request_queue := rest } out hB hne hexec hret
            exact dispatch_while_drains cfg env hB fuel out.st (nd + 1) nd'
              st' (by simp only at hs; omega) h
          · simp at h
    · rename_i hcond
      simp only [Option.some.injEq, Prod.mk.injEq] at h
      obtain ⟨-, h2, -⟩ := h
      subst h2
      omega

/-! ### Claims about the completion invariant, batching gate and failed
dispatch -/

/-- Claim C2: in every reachable state no task has inference_done above
inference_todo; across any transition inference_done never decreases
(and inference_todo is frozen); and the async-result poll returns
DAST_EMPTY_QUEUE iff the task FIFO is empty, DAST_SUCCESS with the front
task frames iff the front task has inference_done equal to
inference_todo (popping it), and DAST_NOT_READY otherwise. -/
theorem c2_completion_invariant (cfg : OVConfig) (st st' : OVModelState)
    (hB : 1 ≤ cfg.batch_size) (hre : Reachable cfg st)
    (hstep : OVStep cfg st st') :
    (∀ tid < st.tasks.length, doneOf st.tasks tid ≤ todoOf st.tasks tid) ∧
    (∀ tid < st.tasks.length,
      doneOf st.tasks tid ≤ doneOf st'.tasks tid ∧
      todoOf st'.tasks tid = todoOf st.tasks tid) ∧
    (st.task_queue = [] →
      ff_dnn_get_async_result_ov st = (DAST_EMPTY_QUEUE, none, st)) ∧
    (∀ tid rest2, st.task_queue = tid :: rest2 →
      (doneOf st.tasks tid = todoOf st.tasks tid →
        ff_dnn_get_async_result_ov st
          = (DAST_SUCCESS,
             some ((getTask st.tasks tid).in_frame,
               (getTask st.tasks tid).out_frame),
             { st with task_queue := rest2 })) ∧
      (doneOf st.tasks tid ≠ todoOf st.tasks tid →
        ff_dnn_get_async_result_ov st = (DAST_NOT_READY, none, st))) := by
  have hinv := reachable_inv cfg hB hre
  have hpres := step_preserves cfg hB hstep
  refine ⟨fun tid hlt => ?_,
    fun tid hlt => ⟨(hpres.1.2 tid hlt).2.1, (hpres.1.2 tid hlt).1⟩, ?_, ?_⟩
  · exact le_trans (doneOf_le_potential st tid) (hinv.2 tid hlt)
  · intro hq
    simp [ff_dnn_get_async_result_ov, hq]
  · intro tid rest2 hq
    constructor
    · intro hdeq
      simp only [ff_dnn_get_async_result_ov, hq]
      rw [if_neg (by simp only [doneOf, todoOf] at hdeq; simp [hdeq])]
    · intro hne
      simp only [ff_dnn_get_async_result_ov, hq]
      rw [if_pos (by simpa [doneOf, todoOf] using hne)]

/-- Witness for c2_completion_invariant on the freshly initialised model
and a poll transition. -/
theorem c2_completion_invariant_witness :
    (∀ tid < (initState 1).tasks.length,
      doneOf (initState 1).tasks tid ≤ todoOf (initState 1).tasks tid) ∧
    (∀ tid < (initState 1).tasks.length,
      doneOf (initState 1).tasks tid ≤ doneOf (initState 1).tasks tid ∧
      todoOf (initState 1).tasks tid = todoOf (initState 1).tasks tid) ∧
    ((initState 1).task_queue = [] →
      ff_dnn_get_async_result_ov (initState 1)
        = (DAST_EMPTY_QUEUE, none, initState 1)) ∧
    (∀ tid rest2, (initState 1).task_queue = tid :: rest2 →
      (doneOf (initState 1).tasks tid = todoOf (initState 1).tasks tid →
        ff_dnn_get_async_result_ov (initState 1)
          = (DAST_SUCCESS,
             some ((getTask (initState 1).tasks tid).in_frame,
               (getTask (initState 1).tasks tid).out_frame),
             { initState 1 with task_queue := rest2 })) ∧
      (doneOf (initState 1).tasks tid ≠ todoOf (initState 1).tasks tid →
        ff_dnn_get_async_result_ov (initState 1)
          = (DAST_NOT_READY, none, initState 1))) :=
  c2_completion_invariant cfgFrame4 (initState 1) (initState 1) (by decide)
    (Reachable.init 1) (OVStep.poll (initState 1))

/-- Claim C6: the asynchronous submission path dispatches a slot only
once the pending queue has reached batch_size (no dispatch happens
below the threshold), and its while loop keeps dispatching until the
queue size drops below batch_size; concretely, submitting 4 whole-frame
async tasks with batch_size 4 yields no dispatch on the first three
submissions, exactly one dispatch on the fourth, and after its
completion all four tasks are polled from the task FIFO in submission
order. -/
theorem c6_batch_gated_dispatch (cfg : OVConfig) (env : EngineEnv)
    (p : SubmitParams) (st : OVModelState) (ret : DNNReturnType)
    (st' : OVModelState) (nd : Nat) (hB : 1 ≤ cfg.batch_size)
    (h : ff_dnn_execute_model_async_ov cfg env p st = some (ret, st', nd)) :
    (ret = DNN_SUCCESS → st'.inference_queue.length < cfg.batch_size) ∧
    (1 ≤ nd →
      cfg.batch_size ≤
        ((extract_inference_from_task cfg.func_type st.tasks.length
          (ff_dnn_fill_task p true true) p.target
          st.inference_queue).2).length) ∧
    scenB1.map (fun r => (r.1, r.2.2)) = some (DNN_SUCCESS, 0) ∧
    scenB2.map (fun r => (r.1, r.2.2)) = some (DNN_SUCCESS, 0) ∧
    scenB3.map (fun r => (r.1, r.2.2)) = some (DNN_SUCCESS, 0) ∧
    scenB4.map (fun r =>
        (r.1, r.2.2, r.2.1.in_flight.length, r.2.1.inference_queue,
         r.2.1.task_queue))
      = some (DNN_SUCCESS, 1, 1, [], [0, 1, 2, 3]) ∧
    scenB5.map (fun sf => sf.tasks.map
        (fun t => (t.inference_done, t.inference_todo)))
      = some [(1, 1), (1, 1), (1, 1), (1, 1)] ∧
    scenB5.map scenPolls
      = some ([DAST_SUCCESS, DAST_SUCCESS, DAST_SUCCESS, DAST_SUCCESS,
               DAST_EMPTY_QUEUE], [[1, 2, 3], [2, 3], [3], []]) := by
  obtain ⟨rq, tq, iq, ts, fl⟩ := st
  simp only [ff_dnn_execute_model_async_ov] at h
  refine ⟨?_, ?_, rfl, rfl, rfl, rfl, rfl, rfl⟩
  · intro hret
    subst hret
    refine dispatch_while_drains cfg env hB _ _ _ _ _ ?_ h
    simp
  · intro hnd
    by_contra hlt
    push_neg at hlt
    rw [dispatch_while_below cfg env _ _ _ hlt] at h
    simp only [Option.some.injEq, Prod.mk.injEq] at h
    obtain ⟨-, -, h3⟩ := h
    omega

/-- Witness for c6_batch_gated_dispatch at the first Scenario B
submission. -/
theorem c6_batch_gated_dispatch_witness :
    (DNN_SUCCESS = DNN_SUCCESS →
      ({ asyncSt with request_queue := [freshReq] } :
        OVModelState).inference_queue.length < cfgFrame4.batch_size) ∧
    (1 ≤ 0 →
      cfgFrame4.batch_size ≤
        ((extract_inference_from_task cfgFrame4.func_type
          (initState 1).tasks.length
          (ff_dnn_fill_task plainParams true true) plainParams.target
          (initState 1).inference_queue).2).length) ∧
    scenB1.map (fun r => (r.1, r.2.2)) = some (DNN_SUCCESS, 0) ∧
    scenB2.map (fun r => (r.1, r.2.2)) = some (DNN_SUCCESS, 0) ∧
    scenB3.map (fun r => (r.1, r.2.2)) = some (DNN_SUCCESS, 0) ∧
    scenB4.map (fun r =>
        (r.1, r.2.2, r.2.1.in_flight.length, r.2.1.inference_queue,
         r.2.1.task_queue))
      = some (DNN_SUCCESS, 1, 1, [], [0, 1, 2, 3]) ∧
    scenB5.map (fun sf => sf.tasks.map
        (fun t => (t.inference_done, t.inference_todo)))
      = some [(1, 1), (1, 1), (1, 1), (1, 1)] ∧
    scenB5.map scenPolls
      = some ([DAST_SUCCESS, DAST_SUCCESS, DAST_SUCCESS, DAST_SUCCESS,
               DAST_EMPTY_QUEUE], [[1, 2, 3], [2, 3], [3], []]) :=
  c6_batch_gated_dispatch cfgFrame4 envOK plainParams (initState 1)
    DNN_SUCCESS { asyncSt with request_queue := [freshReq] } 0 (by decide)
    rfl

/-- Claim C3 (amended): every dispatch that fails after a slot was
acquired — fill blob-binding failure, callback-registration failure
(asynchronous mode), or engine run failure in either dispatch mode —
returns DNN_ERROR, pushes the slot back onto the pool immediately
WITHOUT resetting its occupancy, does not run the completion routine
and does not dispatch.  On a fill blob-binding failure the slot goes
back with its contents untouched and nothing is dropped; on a post-fill
failure the slot keeps the packed count (at least 1) and the packed
SubInferences are dropped: they leave the pending queue without
entering flight, so every task owning one of them can never again reach
inference_done equal to inference_todo in any later reachable state. -/
theorem c3_failed_dispatch_drops (cfg : OVConfig) (env : EngineEnv)
    (req : OVRequestItem) (st : OVModelState) (out : ExecOut)
    (inf : InferenceItem) (rest : List InferenceItem)
    (hB : 1 ≤ cfg.batch_size)
    (hq : st.inference_queue = inf :: rest)
    (hfail : env.get_blob_ok = false ∨ env.run_ok = false
      ∨ ((getTask st.tasks inf.taskId).async = true ∧ env.set_cb_ok = false))
    (hinv : Inv st)
    (h : execute_model_ov cfg env req st = some out) :
    out.ret = DNN_ERROR ∧
    out.ranCallbackInline = false ∧
    out.dispatched = false ∧
    out.st.tasks = st.tasks ∧
    out.st.in_flight = st.in_flight ∧
    (env.get_blob_ok = false →
      out.st.request_queue = st.request_queue ++ [req] ∧
      out.st.inference_queue = st.inference_queue) ∧
    (env.get_blob_ok = true →
      out.st.request_queue = st.request_queue ++
        [{ inferences := writeSeq req.inferences 0
             (st.inference_queue.take
               (min cfg.batch_size st.inference_queue.length)),
           inference_count :=
             min cfg.batch_size st.inference_queue.length }] ∧
      1 ≤ min cfg.batch_size st.inference_queue.length ∧
      out.st.inference_queue = st.inference_queue.drop
        (min cfg.batch_size st.inference_queue.length) ∧
      (∀ tid, 0 < countFor tid (st.inference_queue.take
          (min cfg.batch_size st.inference_queue.length)) →
        ∀ s', Steps cfg out.st s' →
          doneOf s'.tasks tid < todoOf s'.tasks tid)) := by
  obtain ⟨rq, tq, iq, ts, fl⟩ := st
  simp only at hq
  subst hq
  have hm1 : 1 ≤ min cfg.batch_size (inf :: rest).length := by
    simp only [List.length_cons]
    omega
  cases hgb : env.get_blob_ok with
  | false =>
    have hfill : fill_model_input_ov env cfg.batch_size req (inf :: rest)
        = some (DNN_ERROR, req, inf :: rest, []) := by
      simp [fill_model_input_ov, hgb]
    simp only [execute_model_ov, hfill] at h
    have hgoto : out = execGotoErr
        { request_queue := rq, task_queue := tq,
          inference_queue := inf :: rest, tasks := ts, in_flight := fl }
        req (inf :: rest) := by
      split at h
      all_goals (injection h with h2; exact h2.symm)
    subst hgoto
    refine ⟨rfl, rfl, rfl, rfl, rfl, fun _ => ⟨rfl, rfl⟩, fun hgb2 => ?_⟩
    exact Bool.noConfusion hgb2
  | true =>
    have hfill := fill_model_input_ov_spec env cfg.batch_size req
      (inf :: rest) (by simp) hgb
    rw [if_neg (by omega)] at hfill
    simp only [execute_model_ov, hfill] at h
    have hgoto : out = execGotoErr
        { request_queue := rq, task_queue := tq,
          inference_queue := inf :: rest, tasks := ts, in_flight := fl }
        { inferences := writeSeq req.inferences 0
            ((inf :: rest).take (min cfg.batch_size (inf :: rest).length)),
          inference_count := min cfg.batch_size (inf :: rest).length }
        ((inf :: rest).drop (min cfg.batch_size (inf :: rest).length)) := by
      split at h
      · -- asynchronous front task
        cases hscb : env.set_cb_ok with
        | false =>
          rw [hscb] at h
          simp only [Bool.not_false, if_pos] at h
          injection h with h2
          exact h2.symm
        | true =>
          have hrun : env.run_ok = false := by
            rcases hfail with h1 | h1 | ⟨h1a, h1b⟩
            · rw [hgb] at h1
              exact Bool.noConfusion h1
            · exact h1
            · rw [hscb] at h1b
              exact Bool.noConfusion h1b
          rw [hscb, hrun] at h
          simp only [Bool.not_true, Bool.false_eq_true, if_false,
            Bool.not_false, if_pos] at h
          injection h with h2
          exact h2.symm
      · -- synchronous front task
        rename_i hasy
        have hrun : env.run_ok = false := by
          rcases hfail with h1 | h1 | ⟨h1a, h1b⟩
          · rw [hgb] at h1
            exact Bool.noConfusion h1
          · exact h1
          · exact absurd h1a hasy
        rw [hrun] at h
        simp only [Bool.not_false, if_pos] at h
        injection h with h2
        exact h2.symm
    subst hgoto
    refine ⟨rfl, rfl, rfl, rfl, rfl, fun hgb2 => ?_,
      fun _ => ⟨rfl, hm1, rfl, ?_⟩⟩
    · exact Bool.noConfusion hgb2
    · intro tid hcnt s' hsteps
      simp only at hcnt
      obtain ⟨inf2, hmem, hid⟩ := countFor_pos_exists tid _ hcnt
      have htid : tid < ts.length := by
        have hw := hinv.1.1 inf2 (List.take_subset _ _ hmem)
        rw [hid] at hw
        exact hw
      have hctd := countFor_take_drop tid
        (min cfg.batch_size (inf :: rest).length) (inf :: rest)
      have hle := hinv.2 tid htid
      have hpotlt : potential (execGotoErr
          { request_queue := rq, task_queue := tq,
            inference_queue := inf :: rest, tasks := ts, in_flight := fl }
          { inferences := writeSeq req.inferences 0
              ((inf :: rest).take
                (min cfg.batch_size (inf :: rest).length)),
            inference_count := min cfg.batch_size (inf :: rest).length }
          ((inf :: rest).drop
            (min cfg.batch_size (inf :: rest).length))).st tid
          < todoOf ts tid := by
        simp only [execGotoErr, potential] at hle ⊢
        omega
      have hev := steps_evolves cfg hB hsteps
      have h2 := hev.2 tid htid
      have h3 := doneOf_le_potential s' tid
      have h4 := h2.1
      have h5 := h2.2.2
      simp only [execGotoErr] at hpotlt h4 h5
      omega

/-- Witness for c3_failed_dispatch_drops: callback registration fails
for a one-item batch on an asynchronous front task. -/
theorem c3_failed_dispatch_drops_witness :
    (ExecOut.mk DNN_ERROR
      { asyncSt with
        request_queue := [{ inferences := [{ taskId := 0, bbox_index := 0 }],
                            inference_count := 1 }],
        inference_queue := [] } false false false).ret = DNN_ERROR ∧
    (ExecOut.mk DNN_ERROR
      { asyncSt with
        request_queue := [{ inferences := [{ taskId := 0, bbox_index := 0 }],
                            inference_count := 1 }],
        inference_queue := [] } false false false).ranCallbackInline = false ∧
    (ExecOut.mk DNN_ERROR
      { asyncSt with
        request_queue := [{ inferences := [{ taskId := 0, bbox_index := 0 }],
                            inference_count := 1 }],
        inference_queue := [] } false false false).dispatched = false ∧
    (ExecOut.mk DNN_ERROR
      { asyncSt with
        request_queue := [{ inferences := [{ taskId := 0, bbox_index := 0 }],
                            inference_count := 1 }],
        inference_queue := [] } false false false).st.tasks = asyncSt.tasks ∧
    (ExecOut.mk DNN_ERROR
      { asyncSt with
        request_queue := [{ inferences := [{ taskId := 0, bbox_index := 0 }],
                            inference_count := 1 }],
        inference_queue := [] } false false false).st.in_flight
      = asyncSt.in_flight ∧
    (({ envOK with set_cb_ok := false } : EngineEnv).get_blob_ok = false →
      (ExecOut.mk DNN_ERROR
        { asyncSt with
          request_queue :=
            [{ inferences := [{ taskId := 0, bbox_index := 0 }],
               inference_count := 1 }],
          inference_queue := [] } false false false).st.request_queue
        = asyncSt.request_queue ++ [freshReq] ∧
      (ExecOut.mk DNN_ERROR
        { asyncSt with
          request_queue :=
            [{ inferences := [{ taskId := 0, bbox_index := 0 }],
               inference_count := 1 }],
          inference_queue := [] } false false false).st.inference_queue
        = asyncSt.inference_queue) ∧
    (({ envOK with set_cb_ok := false } : EngineEnv).get_blob_ok = true →
      (ExecOut.mk DNN_ERROR
        { asyncSt with
          request_queue :=
            [{ inferences := [{ taskId := 0, bbox_index := 0 }],
               inference_count := 1 }],
          inference_queue := [] } false false false).st.request_queue
        = asyncSt.request_queue ++
          [{ inferences := writeSeq freshReq.inferences 0
               (asyncSt.inference_queue.take
                 (min cfgFrame1.batch_size asyncSt.inference_queue.length)),
             inference_count :=
               min cfgFrame1.batch_size asyncSt.inference_queue.length }] ∧
      1 ≤ min cfgFrame1.batch_size asyncSt.inference_queue.length ∧
      (ExecOut.mk DNN_ERROR
        { asyncSt with
          request_queue :=
            [{ inferences := [{ taskId := 0, bbox_index := 0 }],
               inference_count := 1 }],
          inference_queue := [] } false false false).st.inference_queue
        = asyncSt.inference_queue.drop
            (min cfgFrame1.batch_size asyncSt.inference_queue.length) ∧
      (∀ tid, 0 < countFor tid (asyncSt.inference_queue.take
          (min cfgFrame1.batch_size asyncSt.inference_queue.length)) →
        ∀ s', Steps cfgFrame1
            (ExecOut.mk DNN_ERROR
              { asyncSt with
                request_queue :=
                  [{ inferences := [{ taskId := 0, bbox_index := 0 }],
                     inference_count := 1 }],
                inference_queue := [] } false false false).st s' →
          doneOf s'.tasks tid < todoOf s'.tasks tid)) :=
  c3_failed_dispatch_drops cfgFrame1 { envOK with set_cb_ok := false }
    freshReq asyncSt
    (ExecOut.mk DNN_ERROR
      { asyncSt with
        request_queue := [{ inferences := [{ taskId := 0, bbox_index := 0 }],
                            inference_count := 1 }],
        inference_queue := [] } false false false)
    { taskId := 0, bbox_index := 0 } [] (by decide) rfl
    (Or.inr (Or.inr ⟨by decide, rfl⟩)) (by unfold Inv WFInfs; decide) rfl

end DnnOv
